import Mathlib

set_option linter.unusedVariables false

/-!
Shallow embedding of the RusTalk SIP B2BUA core (crate rustalk-core) with
proofs about its routing engine, ACL filter, digest authentication, B2BUA
session store, SIP wire codec and certificate storage.

External dependencies of the Rust code are modelled as explicit parameters:

* the `regex` crate as a `RegexEngine` value (compilation may fail, a
  compiled regex is a total match predicate on strings);
* `chrono` wall-clock queries (the injected `TimeProvider`) as a `NowInfo`
  value holding the fields the matcher reads;
* the `md5` crate as an abstract hash `String → String`;
* UUID generation as an injected fresh-id counter;
* the file system as an explicit association list from paths to contents
  together with a success oracle for writes.

All other definitions are translated directly from the repository sources;
each carries a comment naming the Rust item it embeds.
-/

/-! ## Generic helpers -/

/-- Splitting a character list at every occurrence of a separator character.
Models Rust `str::split(c)` (used with `':'`, `'-'` and `'/'`): always
returns at least one part, adjacent separators give empty parts. -/
def splitChar (sep : Char) : List Char → List (List Char)
  | [] => [[]]
  | c :: cs =>
    if c = sep then [] :: splitChar sep cs
    else
      match splitChar sep cs with
      | [] => [[c]]
      | p :: ps => (c :: p) :: ps

/-- Accumulating decimal digit parser. -/
def parseDigitsAux : List Char → Nat → Option Nat
  | [], acc => some acc
  | c :: cs, acc =>
    if c.isDigit then parseDigitsAux cs (acc * 10 + (c.toNat - 48)) else none

/-- Parse a non-empty all-digit character list as a natural number.
Models Rust `str::parse::<uN>()` without the overflow bound (callers
re-check ranges, so an overflowing literal fails in both semantics). -/
def parseDigits : List Char → Option Nat
  | [] => none
  | '+' :: [] => none
  | '+' :: c :: cs => parseDigitsAux (c :: cs) 0
  | cs => parseDigitsAux cs 0

/-! ## Routing data model (src/rustalk-core/src/routing/mod.rs) -/

/-- Rust enum `RouteAction`. -/
inductive RouteAction where
  | Accept
  | Reject
  | Continue
deriving DecidableEq, Repr

/-- Rust enum `RouteDestination`. -/
inductive RouteDestination where
  | Extension (s : String)
  | Trunk (s : String)
  | RingGroup (s : String)
  | Voicemail (s : String)
  | Hangup
  | Custom (s : String)
deriving DecidableEq, Repr

/-- Rust struct `TimeCondition`. -/
structure TimeCondition where
  start_time : String
  end_time : String
deriving DecidableEq, Repr

/-- Rust struct `DayOfWeekCondition` (`days : Vec<u8>`). -/
structure DayOfWeekCondition where
  days : List Nat
deriving DecidableEq, Repr

/-- Rust struct `DateRangeCondition`. -/
structure DateRangeCondition where
  start_date : String
  end_date : String
deriving DecidableEq, Repr

/-- Rust struct `CallerIdCondition`. -/
structure CallerIdCondition where
  pattern : String
  negate : Bool
deriving DecidableEq, Repr

/-- Rust struct `DestinationCondition`. -/
structure DestinationCondition where
  pattern : String
  negate : Bool
deriving DecidableEq, Repr

/-- Rust enum `RouteCondition`. -/
inductive RouteCondition where
  | Time (tc : TimeCondition)
  | DayOfWeek (dow : DayOfWeekCondition)
  | DateRange (dr : DateRangeCondition)
  | CallerId (cid : CallerIdCondition)
  | Destination (dest : DestinationCondition)
deriving DecidableEq, Repr

/-- Rust struct `RouteRule` (`priority : u32` modelled as `Nat`). -/
structure RouteRule where
  id : String
  name : String
  description : Option String
  pattern : String
  destination : RouteDestination
  enabled : Bool
  priority : Nat
  conditions : Option (List RouteCondition)
  action : RouteAction
  continue_on_match : Bool
deriving DecidableEq, Repr

/-- Rust struct `RoutingConfig`. -/
structure RoutingConfig where
  routes : List RouteRule
deriving DecidableEq, Repr

/-- Stable insertion into a list sorted by a numeric key: the new element
is placed before the first element whose key is not smaller. -/
def insertKey (key : α → Nat) (x : α) : List α → List α
  | [] => [x]
  | y :: ys => if key y < key x then y :: insertKey key x ys else x :: y :: ys

/-- Stable sort by a numeric key. Models Rust `Vec::sort_by`/`sort_by_key`
comparing keys: both are stable sorts by the same key, hence produce the
same list. -/
def sortKey (key : α → Nat) : List α → List α
  | [] => []
  | x :: xs => insertKey key x (sortKey key xs)

/-- `RoutingConfig::new`. -/
def RoutingConfig.new : RoutingConfig := ⟨[]⟩

/-- `RoutingConfig::add_route`: push, then keep routes sorted by priority. -/
def RoutingConfig.add_route (c : RoutingConfig) (route : RouteRule) : RoutingConfig :=
  ⟨sortKey (·.priority) (c.routes ++ [route])⟩

/-- `RoutingConfig::enabled_routes`. -/
def RoutingConfig.enabled_routes (c : RoutingConfig) : List RouteRule :=
  c.routes.filter (·.enabled)

/-! ## Condition matcher (src/rustalk-core/src/routing/matcher.rs) -/

/-- Model of the external `regex` crate: `compile` is `Regex::new` (which
may fail), a compiled regex is its total `is_match` predicate. -/
structure RegexEngine where
  compile : String → Option (String → Bool)

/-- Model of `chrono::NaiveTime` (hour, minute, second). -/
structure NaiveTime where
  hour : Nat
  minute : Nat
  second : Nat
deriving DecidableEq, Repr

/-- `chrono` ordering on valid clock times, via seconds since midnight. -/
def NaiveTime.le (a b : NaiveTime) : Bool :=
  a.hour * 3600 + a.minute * 60 + a.second ≤ b.hour * 3600 + b.minute * 60 + b.second

/-- Model of `chrono::NaiveDate` (non-negative years suffice here). -/
structure NaiveDate where
  year : Nat
  month : Nat
  day : Nat
deriving DecidableEq, Repr

/-- `chrono` ordering on dates: lexicographic on (year, month, day). -/
def NaiveDate.le (a b : NaiveDate) : Bool :=
  a.year < b.year ||
    (a.year == b.year &&
      (a.month < b.month || (a.month == b.month && a.day ≤ b.day)))

/-- The fields of the injected `TimeProvider`'s `DateTime<Utc>` that the
condition matcher reads: clock of day, `num_days_from_monday`, and the
naive date. -/
structure NowInfo where
  hour : Nat
  minute : Nat
  second : Nat
  weekdayFromMonday : Nat
  date : NaiveDate
deriving DecidableEq, Repr

/-- Free function `parse_time` in matcher.rs: split on `':'`, require two
parts, parse both, build via `NaiveTime::from_hms_opt(hour, minute, 0)`
(valid iff hour < 24 and minute < 60). -/
def parse_time (time_str : String) : Option NaiveTime :=
  let parts := splitChar ':' time_str.toList
  if parts.length ≠ 2 then none
  else
    match parseDigits parts[0]!, parseDigits parts[1]! with
    | some hour, some minute =>
      if hour < 24 ∧ minute < 60 then some ⟨hour, minute, 0⟩ else none
    | _, _ => none

/-- Leap-year rule of the proleptic Gregorian calendar, as in `chrono`. -/
def isLeapYear (y : Nat) : Bool :=
  y % 4 == 0 && (y % 100 != 0 || y % 400 == 0)

/-- Days in a month, as validated by `chrono::NaiveDate`. -/
def daysInMonth (y m : Nat) : Nat :=
  if m == 2 then (if isLeapYear y then 29 else 28)
  else if m == 4 || m == 6 || m == 9 || m == 11 then 30
  else 31

/-- `NaiveDate::parse_from_str(s, "%Y-%m-%d")` for non-negative years:
three dash-separated decimal fields forming a valid calendar date. -/
def parse_date (s : String) : Option NaiveDate :=
  let parts := splitChar '-' s.toList
  if parts.length ≠ 3 then none
  else
    match parseDigits parts[0]!, parseDigits parts[1]!, parseDigits parts[2]! with
    | some y, some m, some d =>
      if 1 ≤ m ∧ m ≤ 12 ∧ 1 ≤ d ∧ d ≤ daysInMonth y m then some ⟨y, m, d⟩ else none
    | _, _, _ => none

/-- `ConditionMatcher::match_time_condition`. The current time is built by
`NaiveTime::from_hms_opt` with a midnight fallback; an unparsable bound
yields `false`; ranges crossing midnight wrap. -/
def ConditionMatcher.match_time_condition (now : NowInfo) (condition : TimeCondition) : Bool :=
  let current_time : NaiveTime :=
    if now.hour < 24 ∧ now.minute < 60 ∧ now.second < 60 then
      ⟨now.hour, now.minute, now.second⟩
    else ⟨0, 0, 0⟩
  match parse_time condition.start_time with
  | none => false
  | some start_time =>
    match parse_time condition.end_time with
    | none => false
    | some end_time =>
      if start_time.le end_time then
        start_time.le current_time && current_time.le end_time
      else
        start_time.le current_time || current_time.le end_time

/-- `ConditionMatcher::match_day_of_week` (1 = Monday … 7 = Sunday). -/
def ConditionMatcher.match_day_of_week (now : NowInfo) (condition : DayOfWeekCondition) : Bool :=
  condition.days.contains (now.weekdayFromMonday + 1)

/-- `ConditionMatcher::match_date_range`: unparsable bounds yield `false`,
otherwise an inclusive date-interval test. -/
def ConditionMatcher.match_date_range (now : NowInfo) (condition : DateRangeCondition) : Bool :=
  match parse_date condition.start_date with
  | none => false
  | some start_date =>
    match parse_date condition.end_date with
    | none => false
    | some end_date =>
      start_date.le now.date && now.date.le end_date

/-- `ConditionMatcher::match_caller_id`: an uncompilable pattern yields
`false` (before negation), otherwise regex match XOR negate. -/
def ConditionMatcher.match_caller_id (E : RegexEngine) (condition : CallerIdCondition)
    (caller_id : String) : Bool :=
  match E.compile condition.pattern with
  | none => false
  | some regex =>
    let isMatch := regex caller_id
    if condition.negate then !isMatch else isMatch

/-- `ConditionMatcher::match_destination`. -/
def ConditionMatcher.match_destination (E : RegexEngine) (condition : DestinationCondition)
    (destination : String) : Bool :=
  match E.compile condition.pattern with
  | none => false
  | some regex =>
    let isMatch := regex destination
    if condition.negate then !isMatch else isMatch

/-- `ConditionMatcher::match_condition`. -/
def ConditionMatcher.match_condition (E : RegexEngine) (now : NowInfo)
    (condition : RouteCondition) (caller_id destination : String) : Bool :=
  match condition with
  | .Time tc => ConditionMatcher.match_time_condition now tc
  | .DayOfWeek dow => ConditionMatcher.match_day_of_week now dow
  | .DateRange dr => ConditionMatcher.match_date_range now dr
  | .CallerId cid => ConditionMatcher.match_caller_id E cid caller_id
  | .Destination dest => ConditionMatcher.match_destination E dest destination

/-- `ConditionMatcher::matches`: all conditions must hold. -/
def ConditionMatcher.matches (E : RegexEngine) (now : NowInfo)
    (conditions : List RouteCondition) (caller_id destination : String) : Bool :=
  conditions.all (fun condition =>
    ConditionMatcher.match_condition E now condition caller_id destination)

/-! ## Route evaluator (src/rustalk-core/src/routing/evaluator.rs) -/

/-- Rust struct `CallContext`. -/
structure CallContext where
  caller_id : String
  destination : String
deriving DecidableEq, Repr

/-- Rust struct `RouteMatch`. -/
structure RouteMatch where
  route_id : String
  route_name : String
  destination : RouteDestination
  action : RouteAction
deriving DecidableEq, Repr

/-- `RouteEvaluator::matches_pattern`: a pattern that fails to compile
never matches. -/
def RouteEvaluator.matches_pattern (E : RegexEngine) (pattern destination : String) : Bool :=
  match E.compile pattern with
  | some regex => regex destination
  | none => false

/-- `RouteEvaluator::matches_route`: destination pattern first, then all
conditions of the optional condition list. -/
def RouteEvaluator.matches_route (E : RegexEngine) (now : NowInfo)
    (route : RouteRule) (context : CallContext) : Bool :=
  if !(RouteEvaluator.matches_pattern E route.pattern context.destination) then false
  else
    match route.conditions with
    | some conditions =>
      if !(ConditionMatcher.matches E now conditions context.caller_id context.destination) then
        false
      else true
    | none => true

/-- The `for` loop body of `RouteEvaluator::evaluate` over the remaining
enabled routes. -/
def RouteEvaluator.evalLoop (E : RegexEngine) (now : NowInfo) (context : CallContext) :
    List RouteRule → Option RouteMatch
  | [] => none
  | route :: rest =>
    if RouteEvaluator.matches_route E now route context then
      let route_match : RouteMatch := ⟨route.id, route.name, route.destination, route.action⟩
      if !route.continue_on_match then some route_match
      else
        match route.action with
        | .Accept => some route_match
        | .Reject => some route_match
        | .Continue => RouteEvaluator.evalLoop E now context rest
    else RouteEvaluator.evalLoop E now context rest

/-- `RouteEvaluator::evaluate`. -/
def RouteEvaluator.evaluate (E : RegexEngine) (now : NowInfo)
    (config : RoutingConfig) (context : CallContext) : Option RouteMatch :=
  RouteEvaluator.evalLoop E now context config.enabled_routes

/-! ## Routing: derived notions and lemmas -/

/-- A rule on which the evaluation loop stops and returns: it matches, and
either `continue_on_match` is false or the action is not `Continue`. -/
def returningRule (E : RegexEngine) (now : NowInfo) (context : CallContext)
    (route : RouteRule) : Bool :=
  RouteEvaluator.matches_route E now route context &&
    (!route.continue_on_match || decide (route.action ≠ RouteAction.Continue))

/-- The `RouteMatch` built from a rule in `RouteEvaluator::evaluate`. -/
def mkRouteMatch (route : RouteRule) : RouteMatch :=
  ⟨route.id, route.name, route.destination, route.action⟩

theorem evalLoop_eq_find (E : RegexEngine) (now : NowInfo) (context : CallContext) :
    ∀ l : List RouteRule,
      RouteEvaluator.evalLoop E now context l =
        (l.find? (returningRule E now context)).map mkRouteMatch := by
  intro l
  induction l with
  | nil => rfl
  | cons route rest ih =>
    by_cases hm : RouteEvaluator.matches_route E now route context
    · by_cases hc : route.continue_on_match
      · cases ha : route.action <;>
          simp [RouteEvaluator.evalLoop, List.find?, returningRule, hm, hc, ha, ih, mkRouteMatch]
      · simp [RouteEvaluator.evalLoop, List.find?, returningRule, hm, hc, mkRouteMatch]
    · simp [RouteEvaluator.evalLoop, List.find?, returningRule, hm, ih]

theorem mem_insertKey (key : α → Nat) (x a : α) :
    ∀ l : List α, a ∈ insertKey key x l ↔ a = x ∨ a ∈ l := by
  intro l
  induction l with
  | nil => simp [insertKey]
  | cons y ys ih =>
    rw [insertKey]
    by_cases hk : key y < key x
    · rw [if_pos hk]
      simp only [List.mem_cons, ih]
      tauto
    · rw [if_neg hk]
      simp only [List.mem_cons]

theorem insertKey_pairwise (key : α → Nat) (x : α) (l : List α)
    (h : l.Pairwise (fun a b => key a ≤ key b)) :
    (insertKey key x l).Pairwise (fun a b => key a ≤ key b) := by
  induction l with
  | nil => simp [insertKey]
  | cons y ys ih =>
    rw [List.pairwise_cons] at h
    rw [insertKey]
    by_cases hk : key y < key x
    · rw [if_pos hk, List.pairwise_cons]
      refine ⟨?_, ih h.2⟩
      intro a ha
      rcases (mem_insertKey key x a ys).mp ha with ha | ha
      · subst ha; omega
      · exact h.1 a ha
    · rw [if_neg hk, List.pairwise_cons]
      refine ⟨?_, List.pairwise_cons.mpr h⟩
      intro a ha
      rcases List.mem_cons.mp ha with ha | ha
      · subst ha; omega
      · exact Nat.le_trans (by omega) (h.1 a ha)

theorem sortKey_pairwise (key : α → Nat) :
    ∀ l : List α, (sortKey key l).Pairwise (fun a b => key a ≤ key b) := by
  intro l
  induction l with
  | nil => simp [sortKey]
  | cons x xs ih => exact insertKey_pairwise key x (sortKey key xs) ih

/-! ## C1 -/

/-- C1 (amended): `RouteEvaluator::evaluate` returns the first enabled rule
(in the stored, priority-ascending order maintained by `add_route`) that
matches and on which the scan stops — that is, whose `continue_on_match`
is false or whose action is not `Continue` — and returns `None` iff no
enabled rule is such a returning rule; a rule matches iff its destination
pattern matches the context destination and every condition of its
optional condition list holds. -/
theorem C1_evaluate_first_returning_rule (E : RegexEngine) (now : NowInfo)
    (config : RoutingConfig) (context : CallContext) :
    (RouteEvaluator.evaluate E now config context =
      (config.enabled_routes.find? (returningRule E now context)).map mkRouteMatch)
    ∧ (RouteEvaluator.evaluate E now config context = none ↔
        ∀ r ∈ config.enabled_routes, returningRule E now context r = false)
    ∧ (∀ route : RouteRule,
        RouteEvaluator.matches_route E now route context =
          (RouteEvaluator.matches_pattern E route.pattern context.destination &&
            (match route.conditions with
             | some conditions =>
               ConditionMatcher.matches E now conditions context.caller_id context.destination
             | none => true)))
    ∧ (∀ (c : RoutingConfig) (r : RouteRule),
        ((c.add_route r).routes).Pairwise (fun a b => a.priority ≤ b.priority)) := by
  refine ⟨evalLoop_eq_find E now context _, ?_, ?_, ?_⟩
  · rw [RouteEvaluator.evaluate, evalLoop_eq_find]
    simp [List.find?_eq_none]
  · intro route
    rw [RouteEvaluator.matches_route]
    cases hc : route.conditions with
    | none => cases hp : RouteEvaluator.matches_pattern E route.pattern context.destination <;>
        simp [hp]
    | some conditions =>
      cases hp : RouteEvaluator.matches_pattern E route.pattern context.destination <;>
        cases hm : ConditionMatcher.matches E now conditions context.caller_id
          context.destination <;> simp [hp, hm]
  · intro c r
    exact sortKey_pairwise _ _

/-- Contiguous-sublist test, used to model unanchored regex search. -/
def hasInfix (pat : List Char) : List Char → Bool
  | [] => pat.isEmpty
  | c :: cs => pat.isPrefixOf (c :: cs) || hasInfix pat cs

/-- Model of the `regex` crate restricted to the metacharacter-free
patterns used in concrete instances below: compilation succeeds and
`is_match` is unanchored substring search, exactly as the crate behaves
on literal patterns. -/
def modelRegexEngine : RegexEngine :=
  ⟨fun pat => some (fun s => hasInfix pat.toList s.toList)⟩

/-- A fixed clock value (Monday 2024-01-15 10:30:00 UTC), as pinned in the
repository's own tests. -/
def someNow : NowInfo := ⟨10, 30, 0, 0, ⟨2024, 1, 15⟩⟩

/-- A rule that matches destination 2345 but has `continue_on_match = true`
and action `Continue`. -/
def c1Rule : RouteRule :=
  { id := "1", name := "Route 1", description := none, pattern := "2345",
    destination := RouteDestination.Extension "1000", enabled := true, priority := 10,
    conditions := none, action := RouteAction.Continue, continue_on_match := true }

/-- C1 counterexample: with a single enabled rule that matches the call
context but carries `continue_on_match = true` and action `Continue`,
`evaluate` returns `None` although an enabled rule matches — refuting the
claim that `None` is returned iff no enabled rule matches. -/
theorem C1_counterexample :
    RouteEvaluator.evaluate modelRegexEngine someNow (RoutingConfig.new.add_route c1Rule)
        ⟨"+12125551234", "2345"⟩ = none
    ∧ ¬ (∀ r ∈ (RoutingConfig.new.add_route c1Rule).enabled_routes,
          RouteEvaluator.matches_route modelRegexEngine someNow r
            ⟨"+12125551234", "2345"⟩ = false) := by
  constructor
  · decide
  · decide

/-! ## C10 -/

/-- A regex engine on which every compilation fails, modelling the `regex`
crate applied to syntactically invalid patterns. -/
def failRegexEngine : RegexEngine := ⟨fun _ => none⟩

/-- C10: route evaluation is total on bad configuration: an uncompilable
destination pattern never matches; a `CallerId` or `Destination` condition
with an uncompilable regex evaluates false; a `Time` or `DateRange`
condition with an unparsable time or date evaluates false; and `evaluate`
always returns `some` match or `none`. -/
theorem C10_evaluation_total_on_bad_config :
    (∀ (E : RegexEngine) (pattern destination : String),
      E.compile pattern = none →
        RouteEvaluator.matches_pattern E pattern destination = false)
    ∧ (∀ (E : RegexEngine) (condition : CallerIdCondition) (caller_id : String),
        E.compile condition.pattern = none →
          ConditionMatcher.match_caller_id E condition caller_id = false)
    ∧ (∀ (E : RegexEngine) (condition : DestinationCondition) (destination : String),
        E.compile condition.pattern = none →
          ConditionMatcher.match_destination E condition destination = false)
    ∧ (∀ (now : NowInfo) (condition : TimeCondition),
        parse_time condition.start_time = none ∨ parse_time condition.end_time = none →
          ConditionMatcher.match_time_condition now condition = false)
    ∧ (∀ (now : NowInfo) (condition : DateRangeCondition),
        parse_date condition.start_date = none ∨ parse_date condition.end_date = none →
          ConditionMatcher.match_date_range now condition = false)
    ∧ (∀ (E : RegexEngine) (now : NowInfo) (config : RoutingConfig) (context : CallContext),
        RouteEvaluator.evaluate E now config context = none ∨
          ∃ m, RouteEvaluator.evaluate E now config context = some m) := by
  refine ⟨?_, ?_, ?_, ?_, ?_, ?_⟩
  · intro E pattern destination h
    simp [RouteEvaluator.matches_pattern, h]
  · intro E condition caller_id h
    simp [ConditionMatcher.match_caller_id, h]
  · intro E condition destination h
    simp [ConditionMatcher.match_destination, h]
  · intro now condition h
    rcases h with h | h <;> simp [ConditionMatcher.match_time_condition, h]
    cases parse_time condition.start_time <;> simp
  · intro now condition h
    rcases h with h | h <;> simp [ConditionMatcher.match_date_range, h]
    cases parse_date condition.start_date <;> simp
  · intro E now config context
    cases h : RouteEvaluator.evaluate E now config context
    · exact Or.inl rfl
    · exact Or.inr ⟨_, rfl⟩

/-- C10 witness: concrete bad configuration pieces evaluated. -/
theorem C10_witness :
    RouteEvaluator.matches_pattern failRegexEngine "(" "2345" = false
    ∧ ConditionMatcher.match_caller_id failRegexEngine ⟨"(", true⟩ "+12125551234" = false
    ∧ ConditionMatcher.match_destination failRegexEngine ⟨"(", true⟩ "2345" = false
    ∧ ConditionMatcher.match_time_condition someNow ⟨"25:00", "17:00"⟩ = false
    ∧ ConditionMatcher.match_date_range someNow ⟨"junk", "2024-06-30"⟩ = false
    ∧ (RouteEvaluator.evaluate failRegexEngine someNow (RoutingConfig.new.add_route c1Rule)
        ⟨"+12125551234", "2345"⟩ = none ∨
       ∃ m, RouteEvaluator.evaluate failRegexEngine someNow (RoutingConfig.new.add_route c1Rule)
        ⟨"+12125551234", "2345"⟩ = some m) :=
  ⟨C10_evaluation_total_on_bad_config.1 failRegexEngine "(" "2345" rfl,
   C10_evaluation_total_on_bad_config.2.1 failRegexEngine ⟨"(", true⟩ "+12125551234" rfl,
   C10_evaluation_total_on_bad_config.2.2.1 failRegexEngine ⟨"(", true⟩ "2345" rfl,
   C10_evaluation_total_on_bad_config.2.2.2.1 someNow ⟨"25:00", "17:00"⟩ (Or.inl (by decide)),
   C10_evaluation_total_on_bad_config.2.2.2.2.1 someNow ⟨"junk", "2024-06-30"⟩ (Or.inl (by decide)),
   C10_evaluation_total_on_bad_config.2.2.2.2.2 failRegexEngine someNow
     (RoutingConfig.new.add_route c1Rule) ⟨"+12125551234", "2345"⟩⟩

/-! ## ACL data model (src/rustalk-core/src/acl/mod.rs) -/

/-- Model of `std::net::IpAddr`: the v4 variant carries the `u32` value
(`u32::from(ip)`), the v6 variant the `u128` value. -/
inductive IpAddr where
  | v4 (bits : Nat)
  | v6 (bits : Nat)
deriving DecidableEq, BEq, Repr

/-- Rust enum `AclAction`. -/
inductive AclAction where
  | Allow
  | Deny
deriving DecidableEq, BEq, Repr

/-- Rust struct `AclRule` (`priority : u32` modelled as `Nat`). -/
structure AclRule where
  name : String
  cidr : String
  action : AclAction
  priority : Nat
deriving DecidableEq, Repr

/-- Rust struct `Acl`. -/
structure Acl where
  name : String
  description : Option String
  default_policy : AclAction
  rules : List AclRule
  enabled : Bool
deriving DecidableEq, Repr

/-- `Acl::new`: default-deny, enabled, no rules. -/
def Acl.new (name : String) : Acl :=
  ⟨name, none, AclAction.Deny, [], true⟩

/-- `Acl::add_rule`: push, then keep rules sorted by priority. -/
def Acl.add_rule (acl : Acl) (rule : AclRule) : Acl :=
  { acl with rules := sortKey (·.priority) (acl.rules ++ [rule]) }

/-! ### IP address parsing

Model of `std::net`'s address parsers, restricted to the grammar the
repository and this development exercise: dotted-quad IPv4 with 1-3 digit
octets and no redundant leading zeros, and RFC 4291 IPv6 hex groups with
at most one `::` compression (no embedded IPv4 tail). -/

/-- One dotted-quad octet. -/
def parseOctet (cs : List Char) : Option Nat :=
  match cs with
  | [] => none
  | c :: rest =>
    if c = '0' ∧ rest ≠ [] then none
    else if cs.length > 3 then none
    else
      match parseDigitsAux cs 0 with
      | some v => if v ≤ 255 then some v else none
      | none => none

/-- Dotted-quad IPv4 parser (`Ipv4Addr::from_str`), yielding the `u32`. -/
def ipv4FromList (cs : List Char) : Option Nat :=
  match splitChar '.' cs with
  | [a, b, c, d] =>
    match parseOctet a, parseOctet b, parseOctet c, parseOctet d with
    | some av, some bv, some cv, some dv => some (((av * 256 + bv) * 256 + cv) * 256 + dv)
    | _, _, _, _ => none
  | _ => none

/-- One hexadecimal digit. -/
def hexDigitVal (c : Char) : Option Nat :=
  if '0' ≤ c ∧ c ≤ '9' then some (c.toNat - 48)
  else if 'a' ≤ c ∧ c ≤ 'f' then some (c.toNat - 87)
  else if 'A' ≤ c ∧ c ≤ 'F' then some (c.toNat - 55)
  else none

def parseHexAux : List Char → Nat → Option Nat
  | [], acc => some acc
  | c :: cs, acc =>
    match hexDigitVal c with
    | some v => parseHexAux cs (acc * 16 + v)
    | none => none

/-- One IPv6 hex group of one to four hex digits. -/
def parseHexGroup (cs : List Char) : Option Nat :=
  if cs = [] ∨ cs.length > 4 then none else parseHexAux cs 0

/-- Split at the first `::`, when present. -/
def splitColonColon : List Char → Option (List Char × List Char)
  | [] => none
  | ':' :: ':' :: rest => some ([], rest)
  | c :: rest =>
    match splitColonColon rest with
    | some (l, r) => some (c :: l, r)
    | none => none

def parseHexGroups (parts : List (List Char)) : Option (List Nat) :=
  match parts with
  | [] => some []
  | p :: ps =>
    match parseHexGroup p, parseHexGroups ps with
    | some v, some vs => some (v :: vs)
    | _, _ => none

/-- Combine hex groups (most significant first) into the `u128` value. -/
def combineGroups (gs : List Nat) : Nat :=
  gs.foldl (fun acc g => acc * 65536 + g) 0

/-- IPv6 parser (`Ipv6Addr::from_str` on the grammar described above),
yielding the `u128`. -/
def ipv6FromList (cs : List Char) : Option Nat :=
  match splitColonColon cs with
  | some (l, r) =>
    let lparts := if l = [] then [] else splitChar ':' l
    let rparts := if r = [] then [] else splitChar ':' r
    match parseHexGroups lparts, parseHexGroups rparts with
    | some lv, some rv =>
      if lv.length + rv.length ≤ 7 then
        some (combineGroups (lv ++ List.replicate (8 - lv.length - rv.length) 0 ++ rv))
      else none
    | _, _ => none
  | none =>
    let parts := splitChar ':' cs
    if parts.length = 8 then
      match parseHexGroups parts with
      | some vs => some (combineGroups vs)
      | none => none
    else none

/-- `IpAddr::from_str`: IPv4 first, then IPv6. -/
def ipFromList (cs : List Char) : Option IpAddr :=
  match ipv4FromList cs with
  | some v => some (IpAddr.v4 v)
  | none =>
    match ipv6FromList cs with
    | some v => some (IpAddr.v6 v)
    | none => none

/-- `str::parse::<u8>()` for the prefix length. -/
def parseU8 (cs : List Char) : Option Nat :=
  match parseDigits cs with
  | some n => if n ≤ 255 then some n else none
  | none => none

/-! ### CIDR matching (acl/mod.rs, `matches_cidr` and helpers) -/

/-- `matches_ipv4_cidr`: `prefix_len = 0` matches everything, otherwise
masked comparison with `mask = !0u32 << (32 - prefix_len)`. -/
def matchesIpv4Cidr (ip network prefix_len : Nat) : Bool :=
  if prefix_len == 0 then true
  else
    let mask := ((2 ^ 32 - 1) <<< (32 - prefix_len)) % 2 ^ 32
    (ip &&& mask) == (network &&& mask)

/-- `matches_ipv6_cidr`: as above with `!0u128 << (128 - prefix_len)`. -/
def matchesIpv6Cidr (ip network prefix_len : Nat) : Bool :=
  if prefix_len == 0 then true
  else
    let mask := ((2 ^ 128 - 1) <<< (128 - prefix_len)) % 2 ^ 128
    (ip &&& mask) == (network &&& mask)

/-- The `match (ip, network)` dispatch at the end of `matches_cidr`:
family-matched comparisons validate the prefix length, a family mismatch
is `Ok(false)`. -/
def matchesParsedCidr (ip network : IpAddr) (prefix_len : Nat) : Except String Bool :=
  match ip, network with
  | .v4 ip_v4, .v4 net_v4 =>
    if prefix_len > 32 then .error "IPv4 prefix length must be at most 32"
    else .ok (matchesIpv4Cidr ip_v4 net_v4 prefix_len)
  | .v6 ip_v6, .v6 net_v6 =>
    if prefix_len > 128 then .error "IPv6 prefix length must be at most 128"
    else .ok (matchesIpv6Cidr ip_v6 net_v6 prefix_len)
  | _, _ => .ok false

/-- `matches_cidr`: a literal address (no `/`) is exact equality, a
`network/prefix` form is parsed and dispatched on the address family. -/
def matches_cidr (ip : IpAddr) (cidr : String) : Except String Bool :=
  let cs := cidr.toList
  if !(cs.contains '/') then
    match ipFromList cs with
    | some target_ip => .ok (ip == target_ip)
    | none => .error "Invalid IP address"
  else
    let parts := splitChar '/' cs
    if parts.length ≠ 2 then .error "Invalid CIDR format"
    else
      match ipFromList parts[0]! with
      | none => .error "Invalid network address"
      | some network =>
        match parseU8 parts[1]! with
        | none => .error "Invalid prefix length"
        | some prefix_len => matchesParsedCidr ip network prefix_len

/-- The rule walk of `Acl::is_allowed`: first rule whose CIDR contains the
address decides; a CIDR error propagates; otherwise the default applies. -/
def Acl.isAllowedLoop (ip : IpAddr) (default_policy : AclAction) :
    List AclRule → Except String Bool
  | [] => .ok (default_policy == AclAction.Allow)
  | rule :: rest =>
    match matches_cidr ip rule.cidr with
    | .error e => .error e
    | .ok true => .ok (rule.action == AclAction.Allow)
    | .ok false => Acl.isAllowedLoop ip default_policy rest

/-- `Acl::is_allowed`. -/
def Acl.is_allowed (acl : Acl) (ip : IpAddr) : Except String Bool :=
  if !acl.enabled then .ok (acl.default_policy == AclAction.Allow)
  else Acl.isAllowedLoop ip acl.default_policy acl.rules

/-- Rust struct `AclManager`. -/
structure AclManager where
  acls : List Acl

/-- `AclManager::new`. -/
def AclManager.new : AclManager := ⟨[]⟩

/-- `AclManager::add_acl`: drop any ACL of the same name, then push. -/
def AclManager.add_acl (m : AclManager) (acl : Acl) : AclManager :=
  ⟨(m.acls.filter (fun a => a.name ≠ acl.name)) ++ [acl]⟩

/-- `AclManager::get_acl`. -/
def AclManager.get_acl (m : AclManager) (name : String) : Option Acl :=
  m.acls.find? (fun a => a.name == name)

/-- `AclManager::is_allowed`: unknown ACL names are errors. -/
def AclManager.is_allowed (m : AclManager) (acl_name : String) (ip : IpAddr) :
    Except String Bool :=
  match m.get_acl acl_name with
  | none => .error "ACL not found"
  | some acl => acl.is_allowed ip

/-- `create_default_acls`: the built-in `rfc1918`, `localhost` and
(disabled) `allow_all` ACLs. -/
def create_default_acls : AclManager :=
  let manager := AclManager.new
  let rfc1918 := { Acl.new "rfc1918" with
    description := some "RFC 1918 private address space",
    default_policy := AclAction.Deny }
  let rfc1918 := rfc1918.add_rule ⟨"10.0.0.0/8", "10.0.0.0/8", AclAction.Allow, 10⟩
  let rfc1918 := rfc1918.add_rule ⟨"172.16.0.0/12", "172.16.0.0/12", AclAction.Allow, 20⟩
  let rfc1918 := rfc1918.add_rule ⟨"192.168.0.0/16", "192.168.0.0/16", AclAction.Allow, 30⟩
  let manager := manager.add_acl rfc1918
  let localhost := { Acl.new "localhost" with
    description := some "Allow localhost traffic",
    default_policy := AclAction.Deny }
  let localhost := localhost.add_rule ⟨"127.0.0.0/8", "127.0.0.0/8", AclAction.Allow, 10⟩
  let localhost := localhost.add_rule ⟨"::1", "::1/128", AclAction.Allow, 20⟩
  let manager := manager.add_acl localhost
  let allow_all := { Acl.new "allow_all" with
    description := some "Allow all traffic, use with caution",
    default_policy := AclAction.Allow,
    enabled := false }
  let manager := manager.add_acl allow_all
  manager

/-! ### Mask arithmetic lemmas -/

theorem testBit_maskVal (w k i : Nat) :
    Nat.testBit (((2 ^ w - 1) <<< k) % 2 ^ w) i = (decide (k ≤ i) && decide (i < w)) := by
  rw [Nat.testBit_mod_two_pow, Nat.testBit_shiftLeft, Nat.testBit_two_pow_sub_one]
  by_cases h1 : k ≤ i <;> by_cases h2 : i < w
  · have h3 : i - k < w := Nat.lt_of_le_of_lt (Nat.sub_le i k) h2
    simp [h1, h2, h3]
  · simp [h2]
  · simp [h1]
  · simp [h1, h2]

theorem maskedEq_iff (w n x y : Nat) (hx : x < 2 ^ w) (hy : y < 2 ^ w) :
    ((x &&& ((2 ^ w - 1) <<< (w - n)) % 2 ^ w) = (y &&& ((2 ^ w - 1) <<< (w - n)) % 2 ^ w))
      ↔ x / 2 ^ (w - n) = y / 2 ^ (w - n) := by
  constructor
  · intro h
    rw [← Nat.shiftRight_eq_div_pow, ← Nat.shiftRight_eq_div_pow]
    apply Nat.eq_of_testBit_eq
    intro j
    rw [Nat.testBit_shiftRight, Nat.testBit_shiftRight]
    by_cases hj : w - n + j < w
    · have hb := congrArg (fun t => Nat.testBit t (w - n + j)) h
      simp only [Nat.testBit_and, testBit_maskVal] at hb
      have h1 : w - n ≤ w - n + j := Nat.le_add_right _ j
      simpa [h1, hj] using hb
    · have hxj : Nat.testBit x (w - n + j) = false :=
        Nat.testBit_lt_two_pow (lt_of_lt_of_le hx
          (Nat.pow_le_pow_right (by norm_num) (Nat.le_of_not_lt hj)))
      have hyj : Nat.testBit y (w - n + j) = false :=
        Nat.testBit_lt_two_pow (lt_of_lt_of_le hy
          (Nat.pow_le_pow_right (by norm_num) (Nat.le_of_not_lt hj)))
      rw [hxj, hyj]
  · intro h
    apply Nat.eq_of_testBit_eq
    intro i
    simp only [Nat.testBit_and, testBit_maskVal]
    by_cases h1 : w - n ≤ i
    · by_cases h2 : i < w
      · have ex : Nat.testBit x i = Nat.testBit (x / 2 ^ (w - n)) (i - (w - n)) := by
          rw [← Nat.shiftRight_eq_div_pow, Nat.testBit_shiftRight, Nat.add_sub_cancel' h1]
        have ey : Nat.testBit y i = Nat.testBit (y / 2 ^ (w - n)) (i - (w - n)) := by
          rw [← Nat.shiftRight_eq_div_pow, Nat.testBit_shiftRight, Nat.add_sub_cancel' h1]
        rw [ex, ey, h]
      · simp [h2]
    · simp [h1]

theorem matchesIpv4Cidr_iff (ip network prefix_len : Nat)
    (hip : ip < 2 ^ 32) (hnet : network < 2 ^ 32) :
    matchesIpv4Cidr ip network prefix_len = true ↔
      ip / 2 ^ (32 - prefix_len) = network / 2 ^ (32 - prefix_len) := by
  rw [matchesIpv4Cidr]
  by_cases h0 : prefix_len = 0
  · subst h0
    simp only [Nat.sub_zero]
    rw [Nat.div_eq_of_lt hip, Nat.div_eq_of_lt hnet]
    simp
  · rw [if_neg (by simpa using h0)]
    simp only [beq_iff_eq]
    exact maskedEq_iff 32 prefix_len ip network hip hnet

theorem matchesIpv6Cidr_iff (ip network prefix_len : Nat)
    (hip : ip < 2 ^ 128) (hnet : network < 2 ^ 128) :
    matchesIpv6Cidr ip network prefix_len = true ↔
      ip / 2 ^ (128 - prefix_len) = network / 2 ^ (128 - prefix_len) := by
  rw [matchesIpv6Cidr]
  by_cases h0 : prefix_len = 0
  · subst h0
    simp only [Nat.sub_zero]
    rw [Nat.div_eq_of_lt hip, Nat.div_eq_of_lt hnet]
    simp
  · rw [if_neg (by simpa using h0)]
    simp only [beq_iff_eq]
    exact maskedEq_iff 128 prefix_len ip network hip hnet

deriving instance DecidableEq for Except

/-- The test a rule hit must pass inside `Acl::is_allowed`: its CIDR
matches the address without error. -/
def cidrHit (ip : IpAddr) (rule : AclRule) : Bool :=
  match matches_cidr ip rule.cidr with
  | .ok true => true
  | _ => false

theorem isAllowedLoop_eq_find (ip : IpAddr) (dp : AclAction) :
    ∀ rules : List AclRule, (∀ r ∈ rules, (matches_cidr ip r.cidr).isOk = true) →
      Acl.isAllowedLoop ip dp rules = .ok
        (match rules.find? (cidrHit ip) with
         | some r => r.action == AclAction.Allow
         | none => dp == AclAction.Allow) := by
  intro rules
  induction rules with
  | nil => intro h; rfl
  | cons r rest ih =>
    intro h
    have hr := h r (List.mem_cons_self r rest)
    cases hm : matches_cidr ip r.cidr with
    | error e =>
      rw [hm] at hr
      simp [Except.isOk, Except.toBool] at hr
    | ok b =>
      cases b
      · have hh : cidrHit ip r = false := by simp [cidrHit, hm]
        simp only [Acl.isAllowedLoop, hm, List.find?_cons, hh]
        exact ih (fun r' hr' => h r' (List.mem_cons_of_mem _ hr'))
      · have hh : cidrHit ip r = true := by simp [cidrHit, hm]
        simp only [Acl.isAllowedLoop, hm, List.find?_cons, hh]

/-! ## C2 -/

/-- C2 (amended): a disabled ACL answers its default policy; an enabled
ACL whose rule CIDRs all evaluate without error answers the action of the
first rule (in the stored, priority-ascending order maintained by
`add_rule`) whose CIDR contains the address, and the default policy when
no rule matches; a malformed rule CIDR instead surfaces as an error.  The
built-in ACLs behave as claimed: `rfc1918` allows 192.168.1.1 and denies
8.8.8.8, `localhost` allows 127.0.0.1. -/
theorem C2_acl_is_allowed (acl : Acl) (ip : IpAddr) :
    (acl.enabled = false → acl.is_allowed ip = .ok (acl.default_policy == AclAction.Allow))
    ∧ (acl.enabled = true →
        (∀ r ∈ acl.rules, (matches_cidr ip r.cidr).isOk = true) →
        acl.is_allowed ip = .ok
          (match acl.rules.find? (cidrHit ip) with
           | some r => r.action == AclAction.Allow
           | none => acl.default_policy == AclAction.Allow))
    ∧ (∀ (a : Acl) (r : AclRule),
        ((a.add_rule r).rules).Pairwise (fun x y => x.priority ≤ y.priority))
    ∧ AclManager.is_allowed create_default_acls "rfc1918" (IpAddr.v4 3232235777) = .ok true
    ∧ AclManager.is_allowed create_default_acls "rfc1918" (IpAddr.v4 134744072) = .ok false
    ∧ AclManager.is_allowed create_default_acls "localhost" (IpAddr.v4 2130706433) = .ok true := by
  refine ⟨?_, ?_, ?_, by decide, by decide, by decide⟩
  · intro h
    rw [Acl.is_allowed, h]
    rfl
  · intro h hok
    rw [Acl.is_allowed, h]
    exact isAllowedLoop_eq_find ip acl.default_policy acl.rules hok
  · intro a r
    exact sortKey_pairwise _ _

/-- An enabled ACL with a malformed rule CIDR. -/
def badCidrAcl : Acl :=
  { Acl.new "bad" with rules := [⟨"badrule", "not-an-ip", AclAction.Allow, 10⟩] }

/-- C2 counterexample: on an enabled ACL holding a rule whose CIDR string
is malformed, `Acl::is_allowed` returns an error — neither a rule action
nor the default policy — refuting the claim for arbitrary ACLs. -/
theorem C2_counterexample :
    badCidrAcl.enabled = true ∧
    (badCidrAcl.is_allowed (IpAddr.v4 16909060)).isOk = false := by
  constructor
  · rfl
  · decide

/-- An enabled default-deny ACL with one allow rule for 10.0.0.0/8. -/
def witAcl : Acl :=
  (Acl.new "w").add_rule ⟨"10.0.0.0/8", "10.0.0.0/8", AclAction.Allow, 10⟩

/-- A disabled default-deny ACL. -/
def offAcl : Acl := { Acl.new "off" with enabled := false }

/-- C2 witness: the amended statement evaluated at concrete ACLs: the
disabled ACL answers its default deny, the enabled one answers the allow
rule hit for 10.1.2.3. -/
theorem C2_witness :
    offAcl.is_allowed (IpAddr.v4 5) = .ok false
    ∧ witAcl.is_allowed (IpAddr.v4 167838211) = .ok true := by
  constructor
  · have h := (C2_acl_is_allowed offAcl (IpAddr.v4 5)).1 rfl
    simpa using h
  · have h := (C2_acl_is_allowed witAcl (IpAddr.v4 167838211)).2.1 rfl (by decide)
    have e : witAcl.rules.find? (cidrHit (IpAddr.v4 167838211)) =
        some ⟨"10.0.0.0/8", "10.0.0.0/8", AclAction.Allow, 10⟩ := by decide
    rw [e] at h
    simpa using h

/-! ## C3 -/

/-- Address family discriminator. -/
def IpAddr.isV4 : IpAddr → Bool
  | .v4 _ => true
  | .v6 _ => false

/-- C3: a CIDR without `/` matches exactly the address it parses to; a
v4 (resp. v6) prefix comparison holds iff the first `n` bits — the high
bits, i.e. the quotients by `2 ^ (32 - n)` (resp. `2 ^ (128 - n)`) —
agree; and a family mismatch between address and network never matches. -/
theorem C3_cidr_match_semantics :
    (∀ (ip target : IpAddr) (cidr : String),
      cidr.toList.contains '/' = false →
      ipFromList cidr.toList = some target →
      matches_cidr ip cidr = .ok (ip == target))
    ∧ (∀ ip network prefix_len : Nat, ip < 2 ^ 32 → network < 2 ^ 32 →
        (matchesIpv4Cidr ip network prefix_len = true ↔
          ip / 2 ^ (32 - prefix_len) = network / 2 ^ (32 - prefix_len)))
    ∧ (∀ ip network prefix_len : Nat, ip < 2 ^ 128 → network < 2 ^ 128 →
        (matchesIpv6Cidr ip network prefix_len = true ↔
          ip / 2 ^ (128 - prefix_len) = network / 2 ^ (128 - prefix_len)))
    ∧ (∀ (ip network : IpAddr) (prefix_len : Nat), ip.isV4 ≠ network.isV4 →
        matchesParsedCidr ip network prefix_len = .ok false) := by
  refine ⟨?_, ?_, ?_, ?_⟩
  · intro ip target cidr hslash hparse
    rw [matches_cidr]
    simp only [hslash, hparse]
    rfl
  · intro ip network prefix_len hip hnet
    exact matchesIpv4Cidr_iff ip network prefix_len hip hnet
  · intro ip network prefix_len hip hnet
    exact matchesIpv6Cidr_iff ip network prefix_len hip hnet
  · intro ip network prefix_len hfam
    cases ip <;> cases network <;> simp [IpAddr.isV4] at hfam ⊢ <;> rfl

/-- C3 witness: the three semantic clauses evaluated at concrete inputs
(192.168.1.100 as a literal; 192.168.1.100 against 192.168.1.0/24; a v6
division instance; a v4 address against a v6 network). -/
theorem C3_witness :
    matches_cidr (IpAddr.v4 3232235876) "192.168.1.100" = .ok true
    ∧ (matchesIpv4Cidr 3232235876 3232235776 24 = true ↔
        3232235876 / 2 ^ (32 - 24) = 3232235776 / 2 ^ (32 - 24))
    ∧ (matchesIpv6Cidr 1 0 127 = true ↔ 1 / 2 ^ (128 - 127) = 0 / 2 ^ (128 - 127))
    ∧ matchesParsedCidr (IpAddr.v4 1) (IpAddr.v6 1) 5 = .ok false := by
  refine ⟨?_, ?_, ?_, ?_⟩
  · have h := C3_cidr_match_semantics.1 (IpAddr.v4 3232235876) (IpAddr.v4 3232235876)
      "192.168.1.100" (by decide) (by decide)
    simpa using h
  · exact C3_cidr_match_semantics.2.1 3232235876 3232235776 24 (by norm_num) (by norm_num)
  · exact C3_cidr_match_semantics.2.2.1 1 0 127 (by norm_num) (by norm_num)
  · exact C3_cidr_match_semantics.2.2.2 (IpAddr.v4 1) (IpAddr.v6 1) 5 (by decide)

/-! ## Digest authentication (src/rustalk-core/src/auth/mod.rs)

The `md5` crate is modelled as an abstract hash `md5f : String → String`
(standing for the hex digest of `md5::compute`); `SystemTime::now` as an
explicit `now : Nat` (Unix seconds); the random nonce component makes the
generated nonce string an explicit parameter. -/

/-- Rust struct `DigestChallenge`. -/
structure DigestChallenge where
  realm : String
  nonce : String
  algorithm : String
  qop : Option String
deriving DecidableEq, Repr

/-- Rust struct `DigestResponse`. -/
structure DigestResponse where
  username : String
  realm : String
  nonce : String
  uri : String
  response : String
  algorithm : Option String
  qop : Option String
  nc : Option String
  cnonce : Option String
deriving DecidableEq, Repr

/-- Rust struct `NonceInfo`. -/
structure NonceInfo where
  timestamp : Nat
  used : Bool
deriving DecidableEq, Repr

/-- Rust struct `AuthManager`; the `HashMap<String, NonceInfo>` is an
association list with key-replacing insertion. -/
structure AuthManager where
  realm : String
  nonces : List (String × NonceInfo)
deriving DecidableEq, Repr

/-- `HashMap::get` on the nonce table. -/
def noncesLookup : List (String × NonceInfo) → String → Option NonceInfo
  | [], _ => none
  | p :: ps, k => if p.1 == k then some p.2 else noncesLookup ps k

/-- `HashMap::insert` on the nonce table (replaces an existing key). -/
def noncesInsert (l : List (String × NonceInfo)) (k : String) (v : NonceInfo) :
    List (String × NonceInfo) :=
  (l.filter (fun p => !(p.1 == k))) ++ [(k, v)]

/-- The `get_mut`-and-set of `used = true` in `validate_response`. -/
def noncesMarkUsed (l : List (String × NonceInfo)) (k : String) :
    List (String × NonceInfo) :=
  l.map (fun p => if p.1 == k then (p.1, ⟨p.2.timestamp, true⟩) else p)

/-- `AuthManager::new`. -/
def AuthManager.new (realm : String) : AuthManager := ⟨realm, []⟩

/-- `AuthManager::generate_challenge` (which calls `generate_nonce`): the
fresh nonce string (timestamp hex plus 64 random bits) and the timestamp
are injected; the nonce is recorded unused. -/
def AuthManager.generate_challenge (m : AuthManager) (nonce : String) (timestamp : Nat) :
    DigestChallenge × AuthManager :=
  (⟨m.realm, nonce, "MD5", some "auth"⟩,
   { m with nonces := noncesInsert m.nonces nonce ⟨timestamp, false⟩ })

/-- Wrapping `u64` subtraction, as `now - nonce_info.timestamp` behaves in
release builds. -/
def wsub64 (a b : Nat) : Nat := (a + 2 ^ 64 - b % 2 ^ 64) % 2 ^ 64

/-- `AuthManager::calculate_response` (RFC 2617 digest): qop `auth`
requires nc and cnonce; any other qop takes the plain form. -/
def AuthManager.calculate_response (md5f : String → String) (m : AuthManager)
    (username password method uri nonce : String)
    (nc cnonce qop : Option String) : Except String String :=
  let ha1 := md5f (username ++ ":" ++ m.realm ++ ":" ++ password)
  let ha2 := md5f (method ++ ":" ++ uri)
  match qop with
  | some "auth" =>
    match nc, cnonce with
    | none, _ => .error "nc required for qop auth"
    | some _, none => .error "cnonce required for qop auth"
    | some ncv, some cnoncev =>
      .ok (md5f (ha1 ++ ":" ++ nonce ++ ":" ++ ncv ++ ":" ++ cnoncev ++ ":auth:" ++ ha2))
  | _ => .ok (md5f (ha1 ++ ":" ++ nonce ++ ":" ++ ha2))

/-- `AuthManager::validate_response`: unknown nonce, stale nonce (older
than 300 s) and replayed nonce fail, in that order; the nonce is marked
used before the digest comparison, and the mutated manager is returned
alongside the result (Rust mutates `self` in place). -/
def AuthManager.validate_response (md5f : String → String) (m : AuthManager)
    (response : DigestResponse) (password method : String) (now : Nat) :
    Except String Bool × AuthManager :=
  match noncesLookup m.nonces response.nonce with
  | none => (.error "Invalid nonce", m)
  | some nonce_info =>
    if wsub64 now nonce_info.timestamp > 300 then (.error "Nonce expired", m)
    else if nonce_info.used then (.error "Nonce already used", m)
    else
      let m' : AuthManager := { m with nonces := noncesMarkUsed m.nonces response.nonce }
      match AuthManager.calculate_response md5f m' response.username password method
          response.uri response.nonce response.nc response.cnonce response.qop with
      | .error e => (.error e, m')
      | .ok expected => (.ok (expected == response.response), m')

theorem noncesLookup_insert (l : List (String × NonceInfo)) (k : String) (v : NonceInfo) :
    noncesLookup (noncesInsert l k v) k = some v := by
  induction l with
  | nil => simp [noncesInsert, noncesLookup]
  | cons p ps ih =>
    by_cases h : p.1 = k
    · simpa [noncesInsert, noncesLookup, h] using ih
    · simpa [noncesInsert, noncesLookup, h] using ih

theorem noncesLookup_markUsed (l : List (String × NonceInfo)) (k : String) :
    noncesLookup (noncesMarkUsed l k) k =
      (noncesLookup l k).map (fun i => ⟨i.timestamp, true⟩) := by
  induction l with
  | nil => simp [noncesMarkUsed, noncesLookup]
  | cons p ps ih =>
    by_cases h : p.1 = k
    · simp [noncesMarkUsed, noncesLookup, h]
    · simpa [noncesMarkUsed, noncesLookup, h] using ih

theorem wsub64_eq (a b : Nat) (h1 : b ≤ a) (h2 : a < 2 ^ 64) : wsub64 a b = a - b := by
  rw [wsub64, Nat.mod_eq_of_lt (Nat.lt_of_le_of_lt h1 h2)]
  have e : a + 2 ^ 64 - b = (a - b) + 2 ^ 64 := by omega
  rw [e, Nat.add_mod_right]
  exact Nat.mod_eq_of_lt (by omega)

theorem calculate_response_congr (md5f : String → String) (m m' : AuthManager)
    (h : m.realm = m'.realm) (username password method uri nonce : String)
    (nc cnonce qop : Option String) :
    AuthManager.calculate_response md5f m username password method uri nonce nc cnonce qop =
      AuthManager.calculate_response md5f m' username password method uri nonce nc cnonce qop := by
  unfold AuthManager.calculate_response
  rw [h]

/-! ## C4 -/

/-- C4: a nonce recorded by `generate_challenge` validates successfully on
its first presentation with a correct digest within 300 seconds of
issuance, and is thereby marked used; every later presentation of the same
nonce fails, regardless of the digest, password, method or time presented. -/
theorem C4_nonce_single_use (md5f : String → String) (m0 : AuthManager)
    (nonce : String) (ts now : Nat) (resp : DigestResponse) (password method : String)
    (hn : resp.nonce = nonce) (h1 : ts ≤ now) (h2 : now - ts ≤ 300) (h3 : now < 2 ^ 64)
    (hcalc : AuthManager.calculate_response md5f m0
        resp.username password method resp.uri resp.nonce resp.nc resp.cnonce resp.qop
      = .ok resp.response) :
    (AuthManager.validate_response md5f ((m0.generate_challenge nonce ts).2)
        resp password method now).1 = .ok true
    ∧ noncesLookup ((AuthManager.validate_response md5f ((m0.generate_challenge nonce ts).2)
        resp password method now).2).nonces nonce = some ⟨ts, true⟩
    ∧ (∀ (resp2 : DigestResponse) (pw2 meth2 : String) (now2 : Nat),
        resp2.nonce = nonce →
        ((AuthManager.validate_response md5f
            ((AuthManager.validate_response md5f ((m0.generate_challenge nonce ts).2)
              resp password method now).2)
            resp2 pw2 meth2 now2).1).isOk = false) := by
  have hlook : noncesLookup ((m0.generate_challenge nonce ts).2).nonces resp.nonce
      = some ⟨ts, false⟩ := by
    rw [hn]
    exact noncesLookup_insert m0.nonces nonce ⟨ts, false⟩
  have e1 : noncesLookup ((m0.generate_challenge nonce ts).2).nonces nonce
      = some ⟨ts, false⟩ := noncesLookup_insert m0.nonces nonce ⟨ts, false⟩
  have hcalc' : AuthManager.calculate_response md5f
      { (m0.generate_challenge nonce ts).2 with
        nonces := noncesMarkUsed ((m0.generate_challenge nonce ts).2).nonces resp.nonce }
      resp.username password method resp.uri resp.nonce resp.nc resp.cnonce resp.qop
      = .ok resp.response := by
    have hcongr := calculate_response_congr md5f
      { (m0.generate_challenge nonce ts).2 with
        nonces := noncesMarkUsed ((m0.generate_challenge nonce ts).2).nonces resp.nonce }
      m0 rfl resp.username password method resp.uri resp.nonce resp.nc resp.cnonce resp.qop
    exact hcongr.trans hcalc
  have hw : wsub64 now ts = now - ts := wsub64_eq now ts h1 h3
  have hle : ¬ (now - ts > 300) := by omega
  have hmain : AuthManager.validate_response md5f ((m0.generate_challenge nonce ts).2)
      resp password method now
      = (.ok (resp.response == resp.response),
         { (m0.generate_challenge nonce ts).2 with
           nonces := noncesMarkUsed ((m0.generate_challenge nonce ts).2).nonces resp.nonce }) := by
    rw [AuthManager.validate_response, hlook]
    simp only [hw, hle, if_false]
    rw [hcalc']
    rfl
  refine ⟨?_, ?_, ?_⟩
  · rw [hmain]
    simp
  · rw [hmain]
    calc noncesLookup (noncesMarkUsed ((m0.generate_challenge nonce ts).2).nonces resp.nonce) nonce
        = (noncesLookup ((m0.generate_challenge nonce ts).2).nonces nonce).map
            (fun i => ⟨i.timestamp, true⟩) := by rw [hn]; exact noncesLookup_markUsed _ _
      _ = some ⟨ts, true⟩ := by rw [e1]; rfl
  · intro resp2 pw2 meth2 now2 hn2
    rw [hmain]
    have hlook2 : noncesLookup
        (noncesMarkUsed ((m0.generate_challenge nonce ts).2).nonces resp.nonce) resp2.nonce
        = some ⟨ts, true⟩ := by
      rw [hn2, hn, noncesLookup_markUsed, e1]
      rfl
    rw [AuthManager.validate_response]
    simp only [hlook2]
    by_cases hw2 : wsub64 now2 ts > 300
    · simp [hw2, Except.isOk, Except.toBool]
    · simp [hw2, Except.isOk, Except.toBool]

/-- The correct digest response for realm `r`, user `alice`, password
`pw`, method REGISTER, uri `sip:r`, nonce `N`, under the identity as the
modelled hash. -/
def c4resp : DigestResponse :=
  ⟨"alice", "r", "N", "sip:r", "alice:r:pw:N:REGISTER:sip:r", none, none, none, none⟩

/-- C4 witness: the first validation of nonce N succeeds at time 100 and
the replay at time 150 fails. -/
theorem C4_witness :
    (AuthManager.validate_response (fun s => s)
        (((AuthManager.new "r").generate_challenge "N" 0).2) c4resp "pw" "REGISTER" 100).1
      = .ok true
    ∧ ((AuthManager.validate_response (fun s => s)
        ((AuthManager.validate_response (fun s => s)
            (((AuthManager.new "r").generate_challenge "N" 0).2) c4resp "pw" "REGISTER" 100).2)
        c4resp "pw" "REGISTER" 150).1).isOk = false := by
  have h := C4_nonce_single_use (fun s => s) (AuthManager.new "r") "N" 0 100 c4resp
    "pw" "REGISTER" rfl (by omega) (by omega) (by norm_num) (by decide)
  exact ⟨h.1, h.2.2 c4resp "pw" "REGISTER" 150 rfl⟩

/-! ## SIP data model (src/rustalk-core/src/sip/)

`Bytes` bodies are modelled as `String` (the parser anyway goes through
`str::from_utf8`); `u16` values as `Nat`.  Rust's Unicode `char`
classifiers are modelled on the ASCII fragment the repository exercises. -/

/-- Rust enum `Method` (sip/method.rs). -/
inductive Method where
  | Invite
  | Ack
  | Bye
  | Cancel
  | Register
  | Options
  | Info
  | Prack
  | Subscribe
  | Notify
  | Update
  | Refer
  | Message
deriving DecidableEq, Repr

/-- `Method::as_str`. -/
def Method.as_str : Method → String
  | .Invite => "INVITE"
  | .Ack => "ACK"
  | .Bye => "BYE"
  | .Cancel => "CANCEL"
  | .Register => "REGISTER"
  | .Options => "OPTIONS"
  | .Info => "INFO"
  | .Prack => "PRACK"
  | .Subscribe => "SUBSCRIBE"
  | .Notify => "NOTIFY"
  | .Update => "UPDATE"
  | .Refer => "REFER"
  | .Message => "MESSAGE"

/-- Rust struct `Uri` (sip/mod.rs). -/
structure Uri where
  scheme : String
  user : Option String
  host : String
  port : Option Nat
  params : List (String × Option String)
deriving DecidableEq, Repr

/-- `Uri::new`. -/
def Uri.new (scheme host : String) : Uri := ⟨scheme, none, host, none, []⟩

/-- Rust struct `Header` (sip/header.rs): a `HeaderName` and a
`HeaderValue`, both plain strings. -/
structure Header where
  name : String
  value : String
deriving DecidableEq, Repr

/-- Rust struct `StatusCode` (sip/response.rs), a `u16` newtype. -/
structure StatusCode where
  code : Nat
deriving DecidableEq, Repr

def StatusCode.TRYING : StatusCode := ⟨100⟩
def StatusCode.OK : StatusCode := ⟨200⟩
def StatusCode.NOT_IMPLEMENTED : StatusCode := ⟨501⟩

/-- `StatusCode::reason_phrase`. -/
def StatusCode.reason_phrase (s : StatusCode) : String :=
  match s.code with
  | 100 => "Trying"
  | 180 => "Ringing"
  | 181 => "Call Is Being Forwarded"
  | 182 => "Queued"
  | 183 => "Session Progress"
  | 200 => "OK"
  | 202 => "Accepted"
  | 300 => "Multiple Choices"
  | 301 => "Moved Permanently"
  | 302 => "Moved Temporarily"
  | 305 => "Use Proxy"
  | 380 => "Alternative Service"
  | 400 => "Bad Request"
  | 401 => "Unauthorized"
  | 402 => "Payment Required"
  | 403 => "Forbidden"
  | 404 => "Not Found"
  | 405 => "Method Not Allowed"
  | 406 => "Not Acceptable"
  | 407 => "Proxy Authentication Required"
  | 408 => "Request Timeout"
  | 410 => "Gone"
  | 413 => "Request Entity Too Large"
  | 414 => "Request-URI Too Long"
  | 415 => "Unsupported Media Type"
  | 416 => "Unsupported URI Scheme"
  | 420 => "Bad Extension"
  | 421 => "Extension Required"
  | 423 => "Interval Too Brief"
  | 480 => "Temporarily Unavailable"
  | 481 => "Call/Transaction Does Not Exist"
  | 482 => "Loop Detected"
  | 483 => "Too Many Hops"
  | 484 => "Address Incomplete"
  | 485 => "Ambiguous"
  | 486 => "Busy Here"
  | 487 => "Request Terminated"
  | 488 => "Not Acceptable Here"
  | 491 => "Request Pending"
  | 493 => "Undecipherable"
  | 500 => "Server Internal Error"
  | 501 => "Not Implemented"
  | 502 => "Bad Gateway"
  | 503 => "Service Unavailable"
  | 504 => "Server Time-out"
  | 505 => "Version Not Supported"
  | 513 => "Message Too Large"
  | 600 => "Busy Everywhere"
  | 603 => "Decline"
  | 604 => "Does Not Exist Anywhere"
  | 606 => "Not Acceptable"
  | _ => "Unknown"

/-- Rust struct `Request` (sip/message.rs). -/
structure Request where
  method : Method
  uri : Uri
  version : String
  headers : List Header
  body : String
deriving DecidableEq, Repr

/-- Rust struct `Response` (sip/message.rs). -/
structure Response where
  version : String
  status_code : StatusCode
  reason_phrase : String
  headers : List Header
  body : String
deriving DecidableEq, Repr

/-- Rust enum `Message`. -/
inductive Message where
  | Request (req : Request)
  | Response (res : Response)
deriving DecidableEq, Repr

/-- `str::eq_ignore_ascii_case` via ASCII lowercasing. -/
def eqIgnoreAsciiCase (a b : String) : Bool :=
  a.toList.map Char.toLower == b.toList.map Char.toLower

/-- `Request::new`. -/
def Request.new (method : Method) (uri : Uri) : Request :=
  ⟨method, uri, "SIP/2.0", [], ""⟩

/-- `Request::with_header`. -/
def Request.with_header (r : Request) (name value : String) : Request :=
  { r with headers := r.headers ++ [⟨name, value⟩] }

/-- `Request::get_header` (case-insensitive on the name). -/
def Request.get_header (r : Request) (name : String) : Option Header :=
  r.headers.find? (fun h => eqIgnoreAsciiCase h.name name)

/-- `Request::get_header_value`. -/
def Request.get_header_value (r : Request) (name : String) : Option String :=
  (r.get_header name).map (·.value)

/-- `Response::new`: version SIP/2.0, canonical reason phrase, no headers,
empty body. -/
def Response.new (status_code : StatusCode) : Response :=
  ⟨"SIP/2.0", status_code, status_code.reason_phrase, [], ""⟩

/-- `Response::with_header`. -/
def Response.with_header (r : Response) (name value : String) : Response :=
  { r with headers := r.headers ++ [⟨name, value⟩] }

/-- `Response::get_header`. -/
def Response.get_header (r : Response) (name : String) : Option Header :=
  r.headers.find? (fun h => eqIgnoreAsciiCase h.name name)

/-- `Response::get_header_value`. -/
def Response.get_header_value (r : Response) (name : String) : Option String :=
  (r.get_header name).map (·.value)

/-! ### Serialization (`Display` impls and `to_bytes`) -/

def digitChar (n : Nat) : Char := Char.ofNat (48 + n)

/-- Decimal rendering, fuel-structured (`fuel > n` suffices). -/
def natToDecAux : Nat → Nat → List Char
  | 0, _ => []
  | fuel + 1, n =>
    if n < 10 then [digitChar n]
    else natToDecAux fuel (n / 10) ++ [digitChar (n % 10)]

/-- Canonical decimal rendering of a natural number, as Rust `Display`
for unsigned integers. -/
def natToDec (n : Nat) : List Char := natToDecAux (n + 1) n

/-- `Display for Uri`: `scheme:`, optional `user@`, host, optional
`:port`, then `;key[=value]` parameter suffixes. -/
def Uri.display (u : Uri) : List Char :=
  u.scheme.toList ++ [':'] ++
  (match u.user with
   | some user => user.toList ++ ['@']
   | none => []) ++
  u.host.toList ++
  (match u.port with
   | some p => [':'] ++ natToDec p
   | none => []) ++
  u.params.foldr
    (fun kv acc =>
      [';'] ++ kv.1.toList ++
        (match kv.2 with
         | some v => ['='] ++ v.toList
         | none => []) ++ acc) []

/-- The header lines of `to_bytes`: `Name: value CRLF` each. -/
def headersBytes : List Header → List Char
  | [] => []
  | h :: hs => h.name.toList ++ [':', ' '] ++ h.value.toList ++ ['\r', '\n'] ++ headersBytes hs

/-- `Request::to_bytes`: request line, headers in insertion order, empty
line, body. -/
def Request.to_bytes (r : Request) : List Char :=
  (Method.as_str r.method).toList ++ [' '] ++ Uri.display r.uri ++ [' '] ++
    r.version.toList ++ ['\r', '\n'] ++
  headersBytes r.headers ++ ['\r', '\n'] ++ r.body.toList

/-- `Response::to_bytes`: status line, headers in insertion order, empty
line, body. -/
def Response.to_bytes (r : Response) : List Char :=
  r.version.toList ++ [' '] ++ natToDec r.status_code.code ++ [' '] ++
    r.reason_phrase.toList ++ ['\r', '\n'] ++
  headersBytes r.headers ++ ['\r', '\n'] ++ r.body.toList

/-- Serialization of either kind of message. -/
def Message.to_bytes : Message → List Char
  | .Request req => req.to_bytes
  | .Response res => res.to_bytes

/-! ### Parser (src/rustalk-core/src/sip/parser.rs)

The nom combinators are embedded as total functions from `List Char` to
`Option (result × List Char)`; a `none` is a nom parse error. -/

/-- nom `tag`. -/
def tagP : List Char → List Char → Option (List Char)
  | [], l => some l
  | _ :: _, [] => none
  | t :: ts, c :: cs => if t = c then tagP ts cs else none

/-- nom `char`. -/
def charP (ch : Char) : List Char → Option (List Char)
  | [] => none
  | c :: cs => if c = ch then some cs else none

/-- nom `line_ending`: LF or CRLF. -/
def lineEndingP : List Char → Option (List Char)
  | '\r' :: '\n' :: rest => some rest
  | '\n' :: rest => some rest
  | _ => none

/-- The longest prefix satisfying a predicate, with the remainder. -/
def spanP (p : Char → Bool) : List Char → List Char × List Char
  | [] => ([], [])
  | c :: cs =>
    if p c then
      match spanP p cs with
      | (t, r) => (c :: t, r)
    else ([], c :: cs)

/-- nom `take_while1`. -/
def takeWhile1 (p : Char → Bool) (l : List Char) : Option (List Char × List Char) :=
  match spanP p l with
  | ([], _) => none
  | (t, r) => some (t, r)

def isSpaceTab (c : Char) : Bool := c = ' ' || c = '\t'

/-- nom `space1`: one or more spaces or tabs. -/
def space1P (l : List Char) : Option (List Char × List Char) :=
  takeWhile1 isSpaceTab l

/-- nom `digit1`. -/
def digit1P (l : List Char) : Option (List Char × List Char) :=
  takeWhile1 Char.isDigit l

/-- nom `take_until("\r\n")`: everything before the first CRLF, which is
left in the input; fails when no CRLF occurs. -/
def takeUntilCRLF : List Char → Option (List Char × List Char)
  | [] => none
  | [_] => none
  | c :: d :: rest =>
    if c = '\r' ∧ d = '\n' then some ([], c :: d :: rest)
    else
      match takeUntilCRLF (d :: rest) with
      | some (a, b) => some (c :: a, b)
      | none => none

/-- The `alt` table of `parse_method`, in source order. -/
def methodTable : List (String × Method) :=
  [("INVITE", .Invite), ("ACK", .Ack), ("BYE", .Bye), ("CANCEL", .Cancel),
   ("REGISTER", .Register), ("OPTIONS", .Options), ("INFO", .Info), ("PRACK", .Prack),
   ("SUBSCRIBE", .Subscribe), ("NOTIFY", .Notify), ("UPDATE", .Update),
   ("REFER", .Refer), ("MESSAGE", .Message)]

def parseMethodGo (l : List Char) : List (String × Method) → Option (Method × List Char)
  | [] => none
  | (s, m) :: rest =>
    match tagP s.toList l with
    | some r => some (m, r)
    | none => parseMethodGo l rest

/-- `parse_method`: `alt` over the thirteen method tags; no fallback for
unknown tokens. -/
def parseMethod (l : List Char) : Option (Method × List Char) :=
  parseMethodGo l methodTable

/-- Rust `char::is_alphanumeric`, on the ASCII fragment. -/
def isUserChar (c : Char) : Bool := c.isAlphanum || c = '-' || c = '_' || c = '.'

def isHostChar (c : Char) : Bool := c.isAlphanum || c = '.' || c = '-'

/-- `parse_uri`: `alt((tag("sip"), tag("sips")))` — so `tag("sip")` always
wins — then `:`, an optional `user@`, the host, and an optional `:port`
(backtracking as nom `opt` does). -/
def parseUri (l : List Char) : Option (Uri × List Char) :=
  match tagP "sip".toList l with
  | none => none
  | some l1 =>
    match charP ':' l1 with
    | none => none
    | some l2 =>
      let userRes : Option String × List Char :=
        match takeWhile1 isUserChar l2 with
        | some (u, r) =>
          match charP '@' r with
          | some r2 => (some (String.mk u), r2)
          | none => (none, l2)
        | none => (none, l2)
      match takeWhile1 isHostChar userRes.2 with
      | none => none
      | some (host, l4) =>
        let portRes : Option Nat × List Char :=
          match charP ':' l4 with
          | some la =>
            match digit1P la with
            | some (ds, lb) =>
              match parseDigitsAux ds 0 with
              | some p => if p ≤ 65535 then (some p, lb) else (none, l4)
              | none => (none, l4)
            | none => (none, l4)
          | none => (none, l4)
        some (⟨"sip", userRes.1, String.mk host, portRes.1, []⟩, portRes.2)

def isHeaderNameChar (c : Char) : Bool := c.isAlphanum || c = '-'

def isWhite (c : Char) : Bool := c = ' ' || c = '\t' || c = '\n' || c = '\r'

/-- Rust `str::trim` on the ASCII whitespace fragment. -/
def trimList (l : List Char) : List Char :=
  ((l.dropWhile isWhite).reverse.dropWhile isWhite).reverse

/-- `parse_header`: token name, `:`, optional spaces, the value up to the
first CRLF (trimmed), and the CRLF line ending. -/
def parseHeader (l : List Char) : Option (Header × List Char) :=
  match takeWhile1 isHeaderNameChar l with
  | none => none
  | some (name, l1) =>
    match charP ':' l1 with
    | none => none
    | some l2 =>
      let l3 := match space1P l2 with
        | some (_, r) => r
        | none => l2
      match takeUntilCRLF l3 with
      | none => none
      | some (value, l4) =>
        match lineEndingP l4 with
        | none => none
        | some l5 => some (⟨String.mk name, String.mk (trimList value)⟩, l5)

/-- nom `many0(parse_header)`, fuel-structured (each step consumes at
least one character, so `fuel ≥ input length` suffices). -/
def parseHeaders : Nat → List Char → List Header × List Char
  | 0, l => ([], l)
  | fuel + 1, l =>
    match parseHeader l with
    | none => ([], l)
    | some (h, r) =>
      match parseHeaders fuel r with
      | (hs, r') => (h :: hs, r')

/-- `parse_request`: request line, headers, empty line, body = the rest. -/
def parseRequest (l : List Char) : Option Request :=
  match parseMethod l with
  | none => none
  | some (method, l1) =>
  match space1P l1 with
  | none => none
  | some (_, l2) =>
  match parseUri l2 with
  | none => none
  | some (uri, l3) =>
  match space1P l3 with
  | none => none
  | some (_, l4) =>
  match tagP "SIP/2.0".toList l4 with
  | none => none
  | some l5 =>
  match lineEndingP l5 with
  | none => none
  | some l6 =>
    match parseHeaders l6.length l6 with
    | (headers, l7) =>
      match lineEndingP l7 with
      | none => none
      | some l8 => some ⟨method, uri, "SIP/2.0", headers, String.mk l8⟩

/-- `parse_response`: status line (`SIP/2.0`, u16 code, reason up to
CRLF), headers, empty line, body = the rest. -/
def parseResponse (l : List Char) : Option Response :=
  match tagP "SIP/2.0".toList l with
  | none => none
  | some l1 =>
  match space1P l1 with
  | none => none
  | some (_, l2) =>
  match digit1P l2 with
  | none => none
  | some (ds, l3) =>
  match parseDigitsAux ds 0 with
  | none => none
  | some status =>
  if status ≤ 65535 then
    match space1P l3 with
    | none => none
    | some (_, l4) =>
    match takeUntilCRLF l4 with
    | none => none
    | some (reason, l5) =>
    match lineEndingP l5 with
    | none => none
    | some l6 =>
      match parseHeaders l6.length l6 with
      | (headers, l7) =>
        match lineEndingP l7 with
        | none => none
        | some l8 =>
          some ⟨"SIP/2.0", ⟨status⟩, String.mk reason, headers, String.mk l8⟩
  else none

/-- `parse_message`: try request, then response, else a parse error; the
`str::from_utf8` step is absorbed by modelling input as `String`. -/
def parse_message (input : String) : Except String Message :=
  match parseRequest input.toList with
  | some request => .ok (Message.Request request)
  | none =>
    match parseResponse input.toList with
    | some response => .ok (Message.Response response)
    | none => .error "Invalid SIP message"

/-! ## B2BUA (src/rustalk-core/src/b2bua/)

The async lock around the session store is modelled by explicit state
passing; `SessionId::new` (a fresh UUID) by an injected counter; a Rust
`SocketAddr` as a string. `HashMap<SessionId, Session>` is an association
list; its arbitrary iteration order is modelled as list order. -/

/-- Rust enum `SessionState` (b2bua/session.rs). -/
inductive SessionState where
  | Initial
  | Ringing
  | Established
  | Terminating
  | Terminated
deriving DecidableEq, Repr

/-- Rust struct `CallLeg` (b2bua/call_leg.rs). -/
structure CallLeg where
  remote_addr : String
  from_uri : String
  to_uri : String
  contact : Option String
  sdp : Option String
deriving DecidableEq, Repr

/-- Rust struct `Session` (b2bua/session.rs); `id` models the UUID. -/
structure Session where
  id : Nat
  call_id : String
  state : SessionState
  a_leg : Option CallLeg
  b_leg : Option CallLeg
deriving DecidableEq, Repr

/-- `Session::new`: fresh id, state `Initial`, no legs. -/
def Session.new (call_id : String) (id : Nat) : Session :=
  ⟨id, call_id, SessionState.Initial, none, none⟩

/-- The B2BUA session store. -/
def SessionStore := List (Nat × Session)

/-- `B2BUA::handle_invite`: unconditionally creates and inserts a new
session for the request's Call-ID (there is no existence check in the
source) and answers `100 Trying` with the Call-ID echoed; a missing
Call-ID is an error. -/
def B2BUA.handle_invite (sessions : List (Nat × Session)) (next_id : Nat)
    (request : Request) : (List (Nat × Session) × Nat) × Except String (Option Message) :=
  match request.get_header_value "Call-ID" with
  | none => ((sessions, next_id), .error "No Call-ID in INVITE")
  | some call_id =>
    let session := Session.new call_id next_id
    ((sessions ++ [(session.id, session)], next_id + 1),
     .ok (some (Message.Response
       ((Response.new StatusCode.TRYING).with_header "Call-ID" call_id))))

/-- `B2BUA::handle_bye`: find the first session with the Call-ID, remove
it when present, and answer `200 OK` either way; a missing Call-ID is an
error. -/
def B2BUA.handle_bye (sessions : List (Nat × Session)) (request : Request) :
    List (Nat × Session) × Except String (Option Message) :=
  match request.get_header_value "Call-ID" with
  | none => (sessions, .error "No Call-ID in BYE")
  | some call_id =>
    let session_id := (sessions.find? (fun p => p.2.call_id == call_id)).map (fun p => p.1)
    let sessions' := match session_id with
      | some id => sessions.filter (fun p => !(p.1 == id))
      | none => sessions
    (sessions', .ok (some (Message.Response
      ((Response.new StatusCode.OK).with_header "Call-ID" call_id))))

/-- `B2BUA::handle_options`: `200 OK` with capability headers; a missing
Call-ID falls back to `none`. -/
def B2BUA.handle_options (sessions : List (Nat × Session)) (request : Request) :
    List (Nat × Session) × Except String (Option Message) :=
  let call_id := (request.get_header_value "Call-ID").getD "none"
  (sessions, .ok (some (Message.Response
    (((((Response.new StatusCode.OK).with_header "Call-ID" call_id).with_header
        "Allow" "INVITE, ACK, BYE, CANCEL, OPTIONS, INFO").with_header
        "Accept" "application/sdp").with_header "Supported" "replaces, timer"))))

/-- `B2BUA::handle_ack`: no response. -/
def B2BUA.handle_ack (sessions : List (Nat × Session)) (request : Request) :
    List (Nat × Session) × Except String (Option Message) :=
  (sessions, .ok none)

/-- `B2BUA::handle_cancel`: `200 OK` with the Call-ID echoed. -/
def B2BUA.handle_cancel (sessions : List (Nat × Session)) (request : Request) :
    List (Nat × Session) × Except String (Option Message) :=
  match request.get_header_value "Call-ID" with
  | none => (sessions, .error "No Call-ID in CANCEL")
  | some call_id =>
    (sessions, .ok (some (Message.Response
      ((Response.new StatusCode.OK).with_header "Call-ID" call_id))))

/-- `B2BUA::handle_request`: dispatch on the method; anything outside
INVITE, BYE, OPTIONS, ACK, CANCEL is answered `501 Not Implemented`. -/
def B2BUA.handle_request (sessions : List (Nat × Session)) (next_id : Nat)
    (request : Request) : (List (Nat × Session) × Nat) × Except String (Option Message) :=
  match request.method with
  | .Invite => B2BUA.handle_invite sessions next_id request
  | .Bye =>
    match B2BUA.handle_bye sessions request with
    | (s, r) => ((s, next_id), r)
  | .Options =>
    match B2BUA.handle_options sessions request with
    | (s, r) => ((s, next_id), r)
  | .Ack =>
    match B2BUA.handle_ack sessions request with
    | (s, r) => ((s, next_id), r)
  | .Cancel =>
    match B2BUA.handle_cancel sessions request with
    | (s, r) => ((s, next_id), r)
  | _ =>
    ((sessions, next_id),
     .ok (some (Message.Response (Response.new StatusCode.NOT_IMPLEMENTED))))

/-- `B2BUA::handle_response`: correlation only reads the store; the
result is `Ok(None)` whether or not a session is found, and an error
without a Call-ID. -/
def B2BUA.handle_response (sessions : List (Nat × Session)) (response : Response) :
    List (Nat × Session) × Except String (Option Message) :=
  match response.get_header_value "Call-ID" with
  | none => (sessions, .error "No Call-ID in response")
  | some _ => (sessions, .ok none)

/-- `B2BUA::handle_message`. -/
def B2BUA.handle_message (sessions : List (Nat × Session)) (next_id : Nat)
    (message : Message) : (List (Nat × Session) × Nat) × Except String (Option Message) :=
  match message with
  | .Request req => B2BUA.handle_request sessions next_id req
  | .Response res =>
    match B2BUA.handle_response sessions res with
    | (s, r) => ((s, next_id), r)

/-- Folding `handle_message` over a list of inbound messages, from a
given store and id-counter state. -/
def B2BUA.run (st : List (Nat × Session) × Nat) : List Message → List (Nat × Session) × Nat
  | [] => st
  | m :: ms => B2BUA.run (B2BUA.handle_message st.1 st.2 m).1 ms

/-- Number of non-terminated sessions stored for a Call-ID. -/
def countNonTerminated (sessions : List (Nat × Session)) (c : String) : Nat :=
  (sessions.filter (fun p => p.2.call_id == c && !(p.2.state == SessionState.Terminated))).length

/-- The spec's session-uniqueness invariant: the non-terminated sessions
have pairwise distinct Call-IDs. -/
def sessionInv (sessions : List (Nat × Session)) : Prop :=
  (sessions.filter (fun p => !(p.2.state == SessionState.Terminated))).Pairwise
    (fun p q => p.2.call_id ≠ q.2.call_id)

theorem pairwise_filter_length_le (l : List (Nat × Session)) (c : String)
    (h : l.Pairwise (fun p q => p.2.call_id ≠ q.2.call_id)) :
    (l.filter (fun p => p.2.call_id == c)).length ≤ 1 := by
  induction l with
  | nil => simp
  | cons p ps ih =>
    rw [List.pairwise_cons] at h
    by_cases hp : p.2.call_id == c
    · have hnil : ps.filter (fun q => q.2.call_id == c) = [] := by
        rw [List.filter_eq_nil_iff]
        intro q hq
        have hne := h.1 q hq
        simp only [beq_iff_eq] at hp ⊢
        intro hqc
        exact hne (hp.trans hqc.symm)
      simp [List.filter_cons, hp, hnil]
    · simp only [List.filter_cons, hp, if_false, Bool.false_eq_true]
      exact ih h.2

theorem countNonTerminated_le_one (sessions : List (Nat × Session)) (c : String)
    (h : sessionInv sessions) : countNonTerminated sessions c ≤ 1 := by
  rw [countNonTerminated]
  have e : sessions.filter
        (fun p => p.2.call_id == c && !(p.2.state == SessionState.Terminated))
      = (sessions.filter (fun p => !(p.2.state == SessionState.Terminated))).filter
          (fun p => p.2.call_id == c) := by
    rw [List.filter_filter]
  rw [e]
  exact pairwise_filter_length_le _ c h

theorem invite_preserves_inv (sessions : List (Nat × Session)) (n : Nat) (req : Request)
    (c : String) (hcid : req.get_header_value "Call-ID" = some c)
    (hinv : sessionInv sessions) (hcount : countNonTerminated sessions c = 0) :
    sessionInv ((B2BUA.handle_invite sessions n req).1.1) := by
  have h0 : ∀ p ∈ sessions,
      ¬(p.2.call_id == c && !(p.2.state == SessionState.Terminated)) = true := by
    rw [countNonTerminated] at hcount
    exact List.filter_eq_nil_iff.mp (List.length_eq_zero.mp hcount)
  rw [B2BUA.handle_invite, hcid]
  rw [sessionInv] at hinv ⊢
  simp only [List.filter_append]
  rw [List.pairwise_append]
  refine ⟨hinv, ?_, ?_⟩
  · simp [Session.new]
  · intro a ha b hb
    have hb' : b = (n, Session.new c n) := by
      have hmem := (List.mem_filter.mp hb).1
      simpa using hmem
    subst hb'
    have ha' := List.mem_filter.mp ha
    intro heq
    apply h0 a ha'.1
    simp only [Session.new] at heq
    simp [heq, ha'.2]

theorem bye_preserves_inv (sessions : List (Nat × Session)) (req : Request)
    (hinv : sessionInv sessions) : sessionInv ((B2BUA.handle_bye sessions req).1) := by
  rw [B2BUA.handle_bye]
  cases hcid : req.get_header_value "Call-ID" with
  | none => exact hinv
  | some c =>
    cases hfind : sessions.find? (fun p => p.2.call_id == c) with
    | none =>
      simp only [hfind]
      exact hinv
    | some entry =>
      simp only [hfind]
      exact hinv.sublist (List.Sublist.filter _ (List.filter_sublist _))

/-! ## C5 -/

/-- C5 (amended): the spec's uniqueness invariant — non-terminated
sessions have pairwise distinct Call-IDs, hence at most one non-terminated
session per Call-ID — is preserved by `handle_bye` unconditionally, and by
`handle_invite` only when no non-terminated session for the request's
Call-ID is already stored; `handle_invite` itself performs no such check,
creating a session unconditionally. -/
theorem C5_session_uniqueness_inductive :
    (∀ (sessions : List (Nat × Session)) (c : String),
      sessionInv sessions → countNonTerminated sessions c ≤ 1)
    ∧ (∀ (sessions : List (Nat × Session)) (n : Nat) (req : Request) (c : String),
        req.get_header_value "Call-ID" = some c →
        sessionInv sessions → countNonTerminated sessions c = 0 →
        sessionInv ((B2BUA.handle_invite sessions n req).1.1))
    ∧ (∀ (sessions : List (Nat × Session)) (req : Request),
        sessionInv sessions → sessionInv ((B2BUA.handle_bye sessions req).1)) :=
  ⟨countNonTerminated_le_one, invite_preserves_inv, bye_preserves_inv⟩

/-- An INVITE for Call-ID call123, as in the repository's own test. -/
def inviteCall123 : Request :=
  (Request.new Method.Invite (Uri.new "sip" "bob@example.com")).with_header
    "Call-ID" "call123"

/-- A BYE for Call-ID call123. -/
def byeCall123 : Request :=
  (Request.new Method.Bye (Uri.new "sip" "bob@example.com")).with_header
    "Call-ID" "call123"

/-- C5 counterexample: from the empty store, handling the same INVITE
twice yields two non-terminated sessions with Call-ID call123 —
`handle_invite` creates a session even when one already exists for the
Call-ID, so the at-most-one invariant fails on reachable states. -/
theorem C5_counterexample :
    countNonTerminated
        (B2BUA.run ([], 0) [Message.Request inviteCall123, Message.Request inviteCall123]).1
        "call123" = 2
    ∧ ¬ (countNonTerminated
        (B2BUA.run ([], 0) [Message.Request inviteCall123, Message.Request inviteCall123]).1
        "call123" ≤ 1) := by
  constructor
  · decide
  · decide

/-- C5 witness: the inductive invariant applied at concrete stores. -/
theorem C5_witness :
    countNonTerminated [(0, Session.new "call123" 0)] "call123" ≤ 1
    ∧ sessionInv ((B2BUA.handle_invite [] 0 inviteCall123).1.1)
    ∧ sessionInv ((B2BUA.handle_bye [(0, Session.new "call123" 0)] byeCall123).1) :=
  ⟨C5_session_uniqueness_inductive.1 [(0, Session.new "call123" 0)] "call123"
     (by simp [sessionInv, Session.new]),
   C5_session_uniqueness_inductive.2.1 [] 0 inviteCall123 "call123" (by decide)
     (by simp [sessionInv]) (by decide),
   C5_session_uniqueness_inductive.2.2 [(0, Session.new "call123" 0)] byeCall123
     (by simp [sessionInv, Session.new])⟩

/-! ## C9 -/

/-- C9: with a Call-ID present, `handle_bye` on a store without a session
for it returns `200 OK` (not an error, not 481) and leaves the store
unchanged; when the store holds a session with that Call-ID (store keys
being distinct, as for a `HashMap`), exactly that session is removed and
`200 OK` is returned. -/
theorem C9_bye_total (sessions : List (Nat × Session)) (req : Request) (c : String)
    (hcid : req.get_header_value "Call-ID" = some c)
    (hkeys : sessions.Pairwise (fun p q => p.1 ≠ q.1)) :
    (sessions.find? (fun p => p.2.call_id == c) = none →
      B2BUA.handle_bye sessions req
        = (sessions, .ok (some (Message.Response
            ((Response.new StatusCode.OK).with_header "Call-ID" c)))))
    ∧ (∀ entry, sessions.find? (fun p => p.2.call_id == c) = some entry →
        (B2BUA.handle_bye sessions req).2
          = .ok (some (Message.Response ((Response.new StatusCode.OK).with_header "Call-ID" c)))
        ∧ (B2BUA.handle_bye sessions req).1 = sessions.filter (fun p => !(p.1 == entry.1))
        ∧ entry ∉ (B2BUA.handle_bye sessions req).1
        ∧ (∀ p ∈ sessions, p ≠ entry → p ∈ (B2BUA.handle_bye sessions req).1)) := by
  constructor
  · intro hfind
    rw [B2BUA.handle_bye, hcid]
    simp only [hfind, Option.map_none']
  · intro entry hfind
    have hbye : B2BUA.handle_bye sessions req
        = (sessions.filter (fun p => !(p.1 == entry.1)),
           .ok (some (Message.Response
             ((Response.new StatusCode.OK).with_header "Call-ID" c)))) := by
      rw [B2BUA.handle_bye, hcid]
      simp only [hfind, Option.map_some']
    have hmem : entry ∈ sessions := List.mem_of_find?_eq_some hfind
    refine ⟨by rw [hbye], by rw [hbye], ?_, ?_⟩
    · rw [hbye]
      intro hin
      have := (List.mem_filter.mp hin).2
      simp at this
    · intro p hp hne
      rw [hbye]
      rw [List.mem_filter]
      refine ⟨hp, ?_⟩
      have hk : p.1 ≠ entry.1 := by
        rcases eq_or_ne p entry with h | h
        · exact absurd h hne
        · exact List.Pairwise.forall (fun _ _ hh => Ne.symm hh) hkeys hp hmem h
      simp [hk]

/-- C9 witness: an unmatched BYE answers 200 OK leaving the empty store
unchanged; a matched BYE removes exactly the stored session. -/
theorem C9_witness :
    B2BUA.handle_bye [] byeCall123
      = ([], .ok (some (Message.Response
          ((Response.new StatusCode.OK).with_header "Call-ID" "call123"))))
    ∧ (B2BUA.handle_bye [(0, Session.new "call123" 0)] byeCall123).1
        = ([] : List (Nat × Session)) := by
  constructor
  · exact (C9_bye_total [] byeCall123 "call123" (by decide) (by simp)).1 (by decide)
  · have h := ((C9_bye_total [(0, Session.new "call123" 0)] byeCall123 "call123"
      (by decide) (by simp)).2 (0, Session.new "call123" 0) (by decide)).2.1
    rw [h]
    decide

/-! ## C6 -/

theorem tagP_eq (t : List Char) : ∀ l r, tagP t l = some r → l = t ++ r := by
  induction t with
  | nil =>
    intro l r h
    simp [tagP] at h
    simp [h]
  | cons tc ts ih =>
    intro l r h
    cases l with
    | nil => simp [tagP] at h
    | cons c cs =>
      rw [tagP] at h
      by_cases hc : tc = c
      · rw [if_pos hc] at h
        rw [← hc, List.cons_append]
        rw [ih cs r h]
      · rw [if_neg hc] at h
        exact absurd h (by simp)

theorem parseMethodGo_eq : ∀ (tbl : List (String × Method)) (l rest : List Char) (m : Method),
    parseMethodGo l tbl = some (m, rest) → ∃ s, (s, m) ∈ tbl ∧ l = s.toList ++ rest := by
  intro tbl
  induction tbl with
  | nil => intro l rest m h; simp [parseMethodGo] at h
  | cons e tl ih =>
    intro l rest m h
    rw [parseMethodGo] at h
    cases ht : tagP e.1.toList l with
    | some r =>
      rw [ht] at h
      simp at h
      exact ⟨e.1, by simp [← h.1], by rw [tagP_eq e.1.toList l r ht, h.2]⟩
    | none =>
      rw [ht] at h
      obtain ⟨s, hs, hl⟩ := ih l rest m h
      exact ⟨s, by simp [hs], hl⟩

theorem methodTable_name : ∀ (s : String) (m : Method), (s, m) ∈ methodTable →
    s = Method.as_str m := by
  intro s m h
  fin_cases h <;> rfl

/-- C6 (amended): a request whose method token is not one of the thirteen
known methods does not parse at all — `parse_method` succeeds only by
consuming one of the thirteen tags — and a parsed request whose method is
outside the set handled by the B2BUA (INVITE, BYE, OPTIONS, ACK, CANCEL),
i.e. REGISTER, INFO, PRACK, SUBSCRIBE, NOTIFY, UPDATE, REFER or MESSAGE,
is answered `501 Not Implemented` with the store unchanged. -/
theorem C6_unknown_method_handling :
    (∀ (l rest : List Char) (m : Method), parseMethod l = some (m, rest) →
        l = (Method.as_str m).toList ++ rest)
    ∧ (∀ (sessions : List (Nat × Session)) (next_id : Nat) (req : Request),
        req.method ∈ [Method.Register, Method.Info, Method.Prack, Method.Subscribe,
          Method.Notify, Method.Update, Method.Refer, Method.Message] →
        B2BUA.handle_request sessions next_id req
          = ((sessions, next_id),
             .ok (some (Message.Response (Response.new StatusCode.NOT_IMPLEMENTED))))) := by
  constructor
  · intro l rest m h
    obtain ⟨s, hs, hl⟩ := parseMethodGo_eq methodTable l rest m h
    rw [hl, methodTable_name s m hs]
  · intro sessions next_id req hm
    simp only [List.mem_cons, List.not_mem_nil, or_false] at hm
    rcases hm with h | h | h | h | h | h | h | h <;>
      simp [B2BUA.handle_request, h]

/-- C6 counterexample: the request line `FOO sip:example.com SIP/2.0` with
an unknown method token fails `parse_message` entirely (no 501 answer is
possible), while the same message with INVITE parses — refuting "unknown
methods parse". -/
theorem C6_counterexample :
    (parse_message "FOO sip:example.com SIP/2.0\r\n\r\n").isOk = false
    ∧ (parse_message "INVITE sip:example.com SIP/2.0\r\n\r\n").isOk = true := by
  constructor
  · decide
  · decide

/-- C6 witness: the 501 dispatch evaluated on a REGISTER request, and the
method-token characterization on a parsed INVITE line. -/
theorem C6_witness :
    B2BUA.handle_request [] 0 (Request.new Method.Register (Uri.new "sip" "example.com"))
      = (([], 0), .ok (some (Message.Response (Response.new StatusCode.NOT_IMPLEMENTED))))
    ∧ "INVITE sip:a SIP/2.0".toList
        = (Method.as_str Method.Invite).toList ++ " sip:a SIP/2.0".toList :=
  ⟨C6_unknown_method_handling.2 [] 0
     (Request.new Method.Register (Uri.new "sip" "example.com")) (by decide),
   C6_unknown_method_handling.1 "INVITE sip:a SIP/2.0".toList " sip:a SIP/2.0".toList
     Method.Invite (by decide)⟩

/-! ## Certificate storage (src/rustalk-core/src/acme/storage.rs)

The file system is an explicit path-to-contents association list;
`tokio::fs::write` outcomes are injected through a success oracle, and
`create_dir_all` and the Unix permission step are modelled as no-ops. -/

def fsLookup : List (String × String) → String → Option String
  | [], _ => none
  | p :: ps, k => if p.1 == k then some p.2 else fsLookup ps k

def fsRemove (fs : List (String × String)) (k : String) : List (String × String) :=
  fs.filter (fun p => !(p.1 == k))

def fsInsert (fs : List (String × String)) (k v : String) : List (String × String) :=
  fsRemove fs k ++ [(k, v)]

/-- `tokio::fs::rename(src, dst)` with the source's `.ok()` (errors
discarded): move the contents when the source exists. -/
def fsRename (fs : List (String × String)) (src dst : String) : List (String × String) :=
  match fsLookup fs src with
  | some v => fsInsert (fsRemove fs src) dst v
  | none => fs

/-- Rust struct `CertificateStorage`. -/
structure CertificateStorage where
  cert_dir : String
deriving DecidableEq, Repr

/-- `CertificateStorage::new`. -/
def CertificateStorage.new (cert_dir : String) : CertificateStorage := ⟨cert_dir⟩

/-- `CertificateStorage::cert_path`. -/
def CertificateStorage.cert_path (s : CertificateStorage) (domain : String) : String :=
  s.cert_dir ++ "/" ++ domain ++ ".pem"

/-- `CertificateStorage::key_path`. -/
def CertificateStorage.key_path (s : CertificateStorage) (domain : String) : String :=
  s.cert_dir ++ "/" ++ domain ++ "-key.pem"

/-- `CertificateStorage::save_certificate`: rename any existing cert and
key to their `.backup` paths (`with_extension("pem.backup")` on a `.pem`
path appends `.backup`), then write the cert and then the key with plain
`fs::write`; a failed write aborts through `?` with the earlier effects
already on disk. -/
def CertificateStorage.save_certificate (s : CertificateStorage)
    (writeOk : String → Bool) (fs0 : List (String × String))
    (domain cert_pem key_pem : String) :
    List (String × String) × Except String Unit :=
  let cert_path := s.cert_path domain
  let key_path := s.key_path domain
  let fs1 := if (fsLookup fs0 cert_path).isSome then
      fsRename fs0 cert_path (cert_path ++ ".backup") else fs0
  let fs2 := if (fsLookup fs1 key_path).isSome then
      fsRename fs1 key_path (key_path ++ ".backup") else fs1
  if writeOk cert_path then
    let fs3 := fsInsert fs2 cert_path cert_pem
    if writeOk key_path then
      (fsInsert fs3 key_path key_pem, .ok ())
    else (fs3, .error "key write failed")
  else (fs2, .error "cert write failed")

theorem fsLookup_insert (fs : List (String × String)) (k v : String) :
    fsLookup (fsInsert fs k v) k = some v := by
  rw [fsInsert, fsRemove]
  induction fs with
  | nil => simp [fsLookup]
  | cons p ps ih =>
    by_cases h : p.1 = k
    · simpa [fsLookup, h] using ih
    · simpa [fsLookup, h] using ih

theorem fsLookup_insert_ne (fs : List (String × String)) (k v k' : String) (h : k' ≠ k) :
    fsLookup (fsInsert fs k v) k' = fsLookup fs k' := by
  have hkk : (k == k') = false := by
    simp only [beq_eq_false_iff_ne, ne_eq]
    exact fun e => h e.symm
  rw [fsInsert, fsRemove]
  induction fs with
  | nil => simp [fsLookup, hkk]
  | cons p ps ih =>
    by_cases hp : p.1 = k
    · have hb : (p.1 == k) = true := by simp [hp]
      have hb' : (p.1 == k') = false := by rw [hp]; exact hkk
      simp only [List.filter_cons, hb, Bool.not_true, Bool.false_eq_true, if_false]
      rw [ih]
      simp only [fsLookup, hb', Bool.false_eq_true, if_false]
    · have hb : (p.1 == k) = false := by simp [hp]
      simp only [List.filter_cons, hb, Bool.not_false, if_true, List.cons_append]
      by_cases hp' : p.1 = k'
      · simp [fsLookup, hp']
      · have hb' : (p.1 == k') = false := by simp [hp']
        simp only [fsLookup, hb', Bool.false_eq_true, if_false]
        exact ih

theorem cert_key_paths_ne (s : CertificateStorage) (domain : String) :
    s.key_path domain ≠ s.cert_path domain := by
  intro h
  have hl := congrArg String.length h
  rw [CertificateStorage.key_path, CertificateStorage.cert_path] at hl
  simp only [String.length_append] at hl
  have e1 : ("-key.pem" : String).length = 8 := rfl
  have e2 : (".pem" : String).length = 4 := rfl
  omega

/-! ## C8 -/

/-- C8 (amended): after a `save_certificate` that returns `Ok`, both
`<domain>.pem` and `<domain>-key.pem` hold the written contents; but a
save is not atomic — the certificate is written before the key, so a
failing key write leaves the new certificate on disk without its key. -/
theorem C8_save_certificate_success (s : CertificateStorage)
    (writeOk : String → Bool) (fs0 : List (String × String))
    (domain cert_pem key_pem : String)
    (h : (s.save_certificate writeOk fs0 domain cert_pem key_pem).2 = .ok ()) :
    fsLookup (s.save_certificate writeOk fs0 domain cert_pem key_pem).1
        (s.cert_path domain) = some cert_pem
    ∧ fsLookup (s.save_certificate writeOk fs0 domain cert_pem key_pem).1
        (s.key_path domain) = some key_pem := by
  rw [CertificateStorage.save_certificate] at h ⊢
  by_cases hc : writeOk (s.cert_path domain)
  · by_cases hk : writeOk (s.key_path domain)
    · simp only [hc, hk, if_true]
      constructor
      · rw [fsLookup_insert_ne _ _ _ _ ((cert_key_paths_ne s domain).symm)]
        exact fsLookup_insert _ _ _
      · exact fsLookup_insert _ _ _
    · simp [hc, hk] at h
  · simp [hc] at h

/-- A write oracle that fails exactly on the key path. -/
def keyFailOracle : String → Bool :=
  fun p => !(p == "certs/example.com-key.pem")

/-- C8 counterexample: with the key write failing, `save_certificate`
errors but the new certificate file is left on disk (and no key file) —
the store is changed by a failed save, refuting atomicity. -/
theorem C8_counterexample :
    ((CertificateStorage.new "certs").save_certificate keyFailOracle []
        "example.com" "CERT" "KEY").2.isOk = false
    ∧ fsLookup ((CertificateStorage.new "certs").save_certificate keyFailOracle []
        "example.com" "CERT" "KEY").1 "certs/example.com.pem" = some "CERT"
    ∧ fsLookup ((CertificateStorage.new "certs").save_certificate keyFailOracle []
        "example.com" "CERT" "KEY").1 "certs/example.com-key.pem" = none := by
  refine ⟨?_, ?_, ?_⟩
  · decide
  · decide
  · decide

/-- C8 witness: a fully successful save leaves both files with the
written contents. -/
theorem C8_witness :
    fsLookup ((CertificateStorage.new "certs").save_certificate (fun _ => true) []
        "example.com" "CERT" "KEY").1
        ((CertificateStorage.new "certs").cert_path "example.com") = some "CERT"
    ∧ fsLookup ((CertificateStorage.new "certs").save_certificate (fun _ => true) []
        "example.com" "CERT" "KEY").1
        ((CertificateStorage.new "certs").key_path "example.com") = some "KEY" :=
  C8_save_certificate_success (CertificateStorage.new "certs") (fun _ => true) []
    "example.com" "CERT" "KEY" (by decide)

/-! ## C7: serialize-parse round trip -/

/-- A character list containing no CRLF pair. -/
def crlfFree : List Char → Bool
  | [] => true
  | [_] => true
  | c :: d :: rest => !(c = '\r' && d = '\n') && crlfFree (d :: rest)

/-- A non-empty string all of whose characters satisfy `p`. -/
def tokenOk (p : Char → Bool) (s : String) : Bool :=
  !s.toList.isEmpty && s.toList.all p

/-- The next character (if any) does not satisfy `p`. -/
def headNotP (p : Char → Bool) : List Char → Prop
  | [] => True
  | c :: _ => p c = false

theorem digitChar_isDigit (n : Nat) (h : n < 10) : (digitChar n).isDigit = true := by
  interval_cases n <;> decide

theorem digitChar_val (n : Nat) (h : n < 10) : (digitChar n).toNat - 48 = n := by
  interval_cases n <;> decide

theorem parseDigitsAux_append (a b : List Char) (acc : Nat) :
    parseDigitsAux (a ++ b) acc
      = match parseDigitsAux a acc with
        | some acc2 => parseDigitsAux b acc2
        | none => none := by
  induction a generalizing acc with
  | nil => rfl
  | cons c cs ih =>
    by_cases hc : c.isDigit
    · simp only [List.cons_append, parseDigitsAux, hc, if_true]
      exact ih _
    · simp [parseDigitsAux, hc]

theorem natToDecAux_spec : ∀ fuel n, 0 < fuel → n < 10 ^ fuel →
    (natToDecAux fuel n ≠ [] ∧ (∀ c ∈ natToDecAux fuel n, c.isDigit = true) ∧
      ∀ acc, parseDigitsAux (natToDecAux fuel n) acc
        = some (acc * 10 ^ (natToDecAux fuel n).length + n)) := by
  intro fuel
  induction fuel with
  | zero => intro n h; omega
  | succ f ih =>
    intro n _ hn
    by_cases hsmall : n < 10
    · refine ⟨by simp [natToDecAux, hsmall], ?_, ?_⟩
      · intro c hc
        simp [natToDecAux, hsmall] at hc
        rw [hc]
        exact digitChar_isDigit n hsmall
      · intro acc
        simp only [natToDecAux, hsmall, if_true, parseDigitsAux,
          digitChar_isDigit n hsmall, List.length_singleton]
        rw [digitChar_val n hsmall]
        simp [pow_one]
    · have hf : 0 < f := by
        rcases Nat.eq_zero_or_pos f with h0 | h0
        · subst h0; simp at hn; omega
        · exact h0
      have hm : n / 10 < 10 ^ f := by
        rw [Nat.div_lt_iff_lt_mul (by norm_num)]
        calc n < 10 ^ (f + 1) := hn
          _ = 10 ^ f * 10 := by rw [pow_succ]
      obtain ⟨hne, hdig, hval⟩ := ih (n / 10) hf hm
      have hr : n % 10 < 10 := Nat.mod_lt n (by norm_num)
      rw [natToDecAux]
      rw [if_neg hsmall]
      refine ⟨by simp, ?_, ?_⟩
      · intro c hc
        rw [List.mem_append] at hc
        rcases hc with hc | hc
        · exact hdig c hc
        · rw [List.mem_singleton] at hc
          rw [hc]
          exact digitChar_isDigit _ hr
      · intro acc
        rw [parseDigitsAux_append, hval acc]
        simp only [parseDigitsAux, digitChar_isDigit _ hr, if_true,
          digitChar_val _ hr]
        rw [List.length_append, List.length_singleton]
        congr 1
        have hplus : acc * 10 ^ ((natToDecAux f (n / 10)).length + 1)
            = acc * 10 ^ (natToDecAux f (n / 10)).length * 10 := by
          rw [pow_succ, Nat.mul_assoc]
        have hdm := Nat.div_add_mod n 10
        rw [hplus]
        set L := (natToDecAux f (n / 10)).length
        have hring : (acc * 10 ^ L + n / 10) * 10 = acc * 10 ^ L * 10 + n / 10 * 10 := by
          ring
        omega

theorem natToDec_nonEmpty (n : Nat) : natToDec n ≠ [] :=
  (natToDecAux_spec (n + 1) n (Nat.succ_pos n)
    (Nat.lt_of_lt_of_le (Nat.lt_pow_self (by norm_num) n)
      (Nat.pow_le_pow_right (by norm_num) (Nat.le_succ n)))).1

theorem natToDec_digits (n : Nat) : ∀ c ∈ natToDec n, c.isDigit = true :=
  (natToDecAux_spec (n + 1) n (Nat.succ_pos n)
    (Nat.lt_of_lt_of_le (Nat.lt_pow_self (by norm_num) n)
      (Nat.pow_le_pow_right (by norm_num) (Nat.le_succ n)))).2.1

theorem natToDec_parse (n : Nat) : parseDigitsAux (natToDec n) 0 = some n := by
  have h := (natToDecAux_spec (n + 1) n (Nat.succ_pos n)
    (Nat.lt_of_lt_of_le (Nat.lt_pow_self (by norm_num) n)
      (Nat.pow_le_pow_right (by norm_num) (Nat.le_succ n)))).2.2 0
  rw [natToDec]
  rw [h]
  simp

theorem spanP_eq (p : Char → Bool) : ∀ (tok rest : List Char),
    (∀ c ∈ tok, p c = true) → headNotP p rest → spanP p (tok ++ rest) = (tok, rest) := by
  intro tok
  induction tok with
  | nil =>
    intro rest _ hrest
    cases rest with
    | nil => rfl
    | cons c cs =>
      simp only [headNotP] at hrest
      simp [spanP, hrest]
  | cons c cs ih =>
    intro rest htok hrest
    have hc : p c = true := htok c (List.mem_cons_self c cs)
    simp only [List.cons_append, spanP, hc, if_true, List.append_eq]
    rw [ih rest (fun x hx => htok x (List.mem_cons_of_mem c hx)) hrest]

theorem takeWhile1_eq (p : Char → Bool) (tok rest : List Char) (hne : tok ≠ [])
    (htok : ∀ c ∈ tok, p c = true) (hrest : headNotP p rest) :
    takeWhile1 p (tok ++ rest) = some (tok, rest) := by
  rw [takeWhile1, spanP_eq p tok rest htok hrest]
  cases tok with
  | nil => exact absurd rfl hne
  | cons c cs => rfl

theorem charP_self (c : Char) (r : List Char) : charP c (c :: r) = some r := by
  simp [charP]

theorem tagP_self : ∀ (t r : List Char), tagP t (t ++ r) = some r := by
  intro t
  induction t with
  | nil => intro r; rfl
  | cons c cs ih => intro r; simp [tagP, ih r]

theorem lineEndingP_crlf (r : List Char) : lineEndingP ('\r' :: '\n' :: r) = some r := rfl

theorem crlfFree_tail (c : Char) (t : List Char) (h : crlfFree (c :: t) = true) :
    crlfFree t = true := by
  cases t with
  | nil => rfl
  | cons d rest =>
    rw [crlfFree, Bool.and_eq_true] at h
    exact h.2

theorem takeUntilCRLF_eq : ∀ (v rest : List Char), crlfFree v = true →
    takeUntilCRLF (v ++ '\r' :: '\n' :: rest) = some (v, '\r' :: '\n' :: rest) := by
  intro v
  induction v with
  | nil =>
    intro rest _
    simp [takeUntilCRLF]
  | cons c v2 ih =>
    intro rest hfree
    cases v2 with
    | nil =>
      have h1 : takeUntilCRLF ('\r' :: '\n' :: rest) = some ([], '\r' :: '\n' :: rest) := by
        simp [takeUntilCRLF]
      have hnot : ¬(c = '\r' ∧ '\r' = '\n') := fun h => absurd h.2 (by decide)
      show takeUntilCRLF (c :: '\r' :: '\n' :: rest) = some ([c], '\r' :: '\n' :: rest)
      simp only [takeUntilCRLF, if_neg hnot, h1]
      simp
    | cons e v3 =>
      have hce : ¬(c = '\r' ∧ e = '\n') := by
        intro h
        rw [crlfFree, h.1, h.2] at hfree
        simp at hfree
      have htail : crlfFree (e :: v3) = true := crlfFree_tail c (e :: v3) hfree
      have hih := ih rest htail
      rw [List.cons_append] at hih
      show takeUntilCRLF (c :: (e :: (v3 ++ '\r' :: '\n' :: rest)))
          = some (c :: e :: v3, '\r' :: '\n' :: rest)
      simp only [takeUntilCRLF, if_neg hce, hih]

theorem dropWhile_eq_self_of_trim (l : List Char) (h : trimList l = l) :
    l.dropWhile isWhite = l := by
  have h1 : (trimList l).length ≤ (l.dropWhile isWhite).length := by
    rw [trimList, List.length_reverse]
    calc ((l.dropWhile isWhite).reverse.dropWhile isWhite).length
        ≤ (l.dropWhile isWhite).reverse.length := (List.dropWhile_sublist _).length_le
      _ = (l.dropWhile isWhite).length := List.length_reverse _
  have h2 : (l.dropWhile isWhite).length ≤ l.length := (List.dropWhile_sublist _).length_le
  rw [h] at h1
  have hlen : (l.dropWhile isWhite).length = l.length := Nat.le_antisymm h2 h1
  exact List.Sublist.eq_of_length (List.dropWhile_sublist _) hlen

theorem trim_head_not_white (l : List Char) (h : trimList l = l) : headNotP isWhite l := by
  have hd := dropWhile_eq_self_of_trim l h
  cases l with
  | nil => exact trivial
  | cons c cs =>
    simp only [headNotP]
    by_cases hc : isWhite c
    · rw [List.dropWhile_cons_of_pos hc] at hd
      have hlen := congrArg List.length hd
      have hle := (List.dropWhile_sublist (l := cs) isWhite).length_le
      simp at hlen
      omega
    · simpa using hc

theorem spaceTab_white (c : Char) (h : isSpaceTab c = true) : isWhite c = true := by
  rw [isSpaceTab, Bool.or_eq_true] at h
  rw [isWhite]
  rcases h with h | h <;> simp [h]

theorem string_mk_toList (s : String) : String.mk s.toList = s := rfl

/-- Well-formed header: token name; value CRLF-free and trim-invariant
(exactly what survives `parse_header`). -/
def headerOk (h : Header) : Bool :=
  tokenOk isHeaderNameChar h.name && crlfFree h.value.toList &&
    (trimList h.value.toList == h.value.toList)

/-- Well-formed URI: representable by `parse_uri` — scheme `sip` (the
`sips` branch of the source's `alt` is unreachable), token user and host,
`u16` port, no parameters (the parser never produces any). -/
def uriOk (u : Uri) : Bool :=
  (u.scheme == "sip") &&
  (match u.user with
   | some user => tokenOk isUserChar user
   | none => true) &&
  tokenOk isHostChar u.host &&
  (match u.port with
   | some p => decide (p ≤ 65535)
   | none => true) &&
  u.params.isEmpty

/-- Well-formed reason phrase: CRLF-free and without leading space or tab
(which the status line's `space1` would swallow). -/
def reasonOk (s : String) : Bool :=
  crlfFree s.toList &&
    (match s.toList with
     | c :: _ => !(isSpaceTab c)
     | [] => true)

/-- Well-formed request: representable by `parse_request`. -/
def requestWf (r : Request) : Bool :=
  uriOk r.uri && (r.version == "SIP/2.0") && r.headers.all headerOk

/-- Well-formed response: representable by `parse_response`. -/
def responseWf (r : Response) : Bool :=
  (r.version == "SIP/2.0") && decide (r.status_code.code ≤ 65535) &&
    reasonOk r.reason_phrase && r.headers.all headerOk

/-- Well-formed message. -/
def messageWf : Message → Bool
  | .Request req => requestWf req
  | .Response res => responseWf res

theorem tokenOk_ne (p : Char → Bool) (s : String) (h : tokenOk p s = true) :
    s.toList ≠ [] := by
  rw [tokenOk, Bool.and_eq_true] at h
  intro he
  rw [he] at h
  simp at h

theorem tokenOk_all (p : Char → Bool) (s : String) (h : tokenOk p s = true) :
    ∀ c ∈ s.toList, p c = true := by
  rw [tokenOk, Bool.and_eq_true] at h
  exact List.all_eq_true.mp h.2
theorem parseHeader_roundtrip (h : Header) (rest : List Char) (hok : headerOk h = true) :
    parseHeader (h.name.toList ++ ':' :: ' ' :: (h.value.toList ++ '\r' :: '\n' :: rest))
      = some (h, rest) := by
  rw [headerOk, Bool.and_eq_true, Bool.and_eq_true] at hok
  obtain ⟨⟨hname, hfree⟩, htrimb⟩ := hok
  have htrim : trimList h.value.toList = h.value.toList := eq_of_beq htrimb
  have hcolon : headNotP isHeaderNameChar
      (':' :: ' ' :: (h.value.toList ++ '\r' :: '\n' :: rest)) := by
    show isHeaderNameChar ':' = false
    decide
  have hvalue_head : headNotP isSpaceTab (h.value.toList ++ '\r' :: '\n' :: rest) := by
    cases hv : h.value.toList with
    | nil =>
      show isSpaceTab '\r' = false
      decide
    | cons v0 vs =>
      show isSpaceTab v0 = false
      have hw := trim_head_not_white h.value.toList htrim
      rw [hv] at hw
      have hw' : isWhite v0 = false := hw
      cases hst : isSpaceTab v0
      · rfl
      · rw [spaceTab_white v0 hst] at hw'
        exact hw'
  have e1 : takeWhile1 isHeaderNameChar
      (h.name.toList ++ ':' :: ' ' :: (h.value.toList ++ '\r' :: '\n' :: rest))
      = some (h.name.toList, ':' :: ' ' :: (h.value.toList ++ '\r' :: '\n' :: rest)) :=
    takeWhile1_eq _ _ _ (tokenOk_ne _ _ hname) (tokenOk_all _ _ hname) hcolon
  have e2 : space1P (' ' :: (h.value.toList ++ '\r' :: '\n' :: rest))
      = some ([' '], h.value.toList ++ '\r' :: '\n' :: rest) := by
    rw [space1P]
    exact takeWhile1_eq isSpaceTab [' '] _ (by simp) (by decide) hvalue_head
  have e3 := takeUntilCRLF_eq h.value.toList rest hfree
  simp only [parseHeader, e1, charP_self, e2, e3, lineEndingP_crlf, htrim, string_mk_toList]

theorem parseHeader_crlf (l : List Char) : parseHeader ('\r' :: l) = none := rfl

theorem headersBytes_cons (h : Header) (hs : List Header) :
    headersBytes (h :: hs)
      = h.name.toList ++ ':' :: ' ' :: (h.value.toList ++ '\r' :: '\n' :: headersBytes hs) := by
  rw [headersBytes]
  simp [List.append_assoc]

theorem parseHeaders_roundtrip : ∀ (hs : List Header) (fuel : Nat) (rest : List Char),
    (∀ h ∈ hs, headerOk h = true) → hs.length ≤ fuel → parseHeader rest = none →
    parseHeaders fuel (headersBytes hs ++ rest) = (hs, rest) := by
  intro hs
  induction hs with
  | nil =>
    intro fuel rest _ _ hrest
    cases fuel with
    | zero => simp [parseHeaders, headersBytes]
    | succ f => simp [parseHeaders, headersBytes, hrest]
  | cons h0 hs' ih =>
    intro fuel rest hok hlen hrest
    cases fuel with
    | zero => simp at hlen
    | succ f =>
      have hh := parseHeader_roundtrip h0 (headersBytes hs' ++ rest)
        (hok h0 (List.mem_cons_self h0 hs'))
      have hih := ih f rest (fun a ha => hok a (List.mem_cons_of_mem h0 ha))
        (by simpa using hlen) hrest
      have hinput : headersBytes (h0 :: hs') ++ rest
          = h0.name.toList ++ ':' :: ' ' ::
              (h0.value.toList ++ '\r' :: '\n' :: (headersBytes hs' ++ rest)) := by
        rw [headersBytes_cons]
        simp [List.append_assoc]
      rw [hinput]
      simp only [parseHeaders, hh, hih]

theorem hostChar_userChar (c : Char) (h : isHostChar c = true) : isUserChar c = true := by
  rw [isHostChar, Bool.or_eq_true, Bool.or_eq_true] at h
  rw [isUserChar]
  rcases h with (h | h) | h
  · simp [h]
  · have hc : c = '.' := of_decide_eq_true h
    subst hc
    decide
  · have hc : c = '-' := of_decide_eq_true h
    subst hc
    decide

theorem parseUri_roundtrip (u : Uri) (r : List Char) (hwf : uriOk u = true) :
    parseUri (Uri.display u ++ ' ' :: r) = some (u, ' ' :: r) := by
  obtain ⟨scheme, user, host, port, params⟩ := u
  cases user with
  | none =>
    cases port with
    | none =>
      simp only [uriOk, Bool.and_eq_true] at hwf
      obtain ⟨⟨⟨⟨hscheme, _⟩, hhost⟩, _⟩, hparams⟩ := hwf
      have hsch : scheme = "sip" := eq_of_beq hscheme
      have hpar : params = [] := by simpa using hparams
      subst hsch hpar
      have hd : Uri.display ⟨"sip", none, host, none, []⟩ ++ ' ' :: r
          = "sip".toList ++ ':' :: (host.toList ++ ' ' :: r) := by
        simp [Uri.display]
      have e2 : takeWhile1 isUserChar (host.toList ++ ' ' :: r)
          = some (host.toList, ' ' :: r) :=
        takeWhile1_eq isUserChar host.toList (' ' :: r) (tokenOk_ne _ _ hhost)
          (fun c hc => hostChar_userChar c (tokenOk_all _ _ hhost c hc))
          (by show isUserChar ' ' = false ; decide)
      have e3 : charP '@' (' ' :: r) = none := by simp [charP]
      have e4 : takeWhile1 isHostChar (host.toList ++ ' ' :: r)
          = some (host.toList, ' ' :: r) :=
        takeWhile1_eq isHostChar host.toList (' ' :: r) (tokenOk_ne _ _ hhost)
          (tokenOk_all _ _ hhost) (by show isHostChar ' ' = false ; decide)
      have e5 : charP ':' (' ' :: r) = none := by simp [charP]
      rw [hd]
      simp only [parseUri, tagP_self, charP_self, e2, e3, e4, e5, string_mk_toList]
    | some p =>
      simp only [uriOk, Bool.and_eq_true] at hwf
      obtain ⟨⟨⟨⟨hscheme, _⟩, hhost⟩, hport⟩, hparams⟩ := hwf
      have hsch : scheme = "sip" := eq_of_beq hscheme
      have hpar : params = [] := by simpa using hparams
      subst hsch hpar
      have hple : p ≤ 65535 := of_decide_eq_true hport
      have hd : Uri.display ⟨"sip", none, host, some p, []⟩ ++ ' ' :: r
          = "sip".toList ++ ':' :: (host.toList ++ ':' :: (natToDec p ++ ' ' :: r)) := by
        simp [Uri.display]
      have e2 : takeWhile1 isUserChar (host.toList ++ ':' :: (natToDec p ++ ' ' :: r))
          = some (host.toList, ':' :: (natToDec p ++ ' ' :: r)) :=
        takeWhile1_eq isUserChar host.toList (':' :: (natToDec p ++ ' ' :: r))
          (tokenOk_ne _ _ hhost)
          (fun c hc => hostChar_userChar c (tokenOk_all _ _ hhost c hc))
          (by show isUserChar ':' = false ; decide)
      have e3 : charP '@' (':' :: (natToDec p ++ ' ' :: r)) = none := by simp [charP]
      have e4 : takeWhile1 isHostChar (host.toList ++ ':' :: (natToDec p ++ ' ' :: r))
          = some (host.toList, ':' :: (natToDec p ++ ' ' :: r)) :=
        takeWhile1_eq isHostChar host.toList (':' :: (natToDec p ++ ' ' :: r))
          (tokenOk_ne _ _ hhost) (tokenOk_all _ _ hhost)
          (by show isHostChar ':' = false ; decide)
      have e6 : digit1P (natToDec p ++ ' ' :: r) = some (natToDec p, ' ' :: r) := by
        rw [digit1P]
        exact takeWhile1_eq Char.isDigit (natToDec p) (' ' :: r) (natToDec_nonEmpty p)
          (natToDec_digits p) (by show Char.isDigit ' ' = false ; decide)
      have e7 : parseDigitsAux (natToDec p) 0 = some p := natToDec_parse p
      rw [hd]
      simp only [parseUri, tagP_self, charP_self, e2, e3, e4, e6, e7, hple, if_true,
        string_mk_toList]
  | some us =>
    cases port with
    | none =>
      simp only [uriOk, Bool.and_eq_true] at hwf
      obtain ⟨⟨⟨⟨hscheme, huser⟩, hhost⟩, _⟩, hparams⟩ := hwf
      have hsch : scheme = "sip" := eq_of_beq hscheme
      have hpar : params = [] := by simpa using hparams
      subst hsch hpar
      have hd : Uri.display ⟨"sip", some us, host, none, []⟩ ++ ' ' :: r
          = "sip".toList ++ ':' :: (us.toList ++ '@' :: (host.toList ++ ' ' :: r)) := by
        simp [Uri.display]
      have e2 : takeWhile1 isUserChar (us.toList ++ '@' :: (host.toList ++ ' ' :: r))
          = some (us.toList, '@' :: (host.toList ++ ' ' :: r)) :=
        takeWhile1_eq isUserChar us.toList ('@' :: (host.toList ++ ' ' :: r))
          (tokenOk_ne _ _ huser) (tokenOk_all _ _ huser)
          (by show isUserChar '@' = false ; decide)
      have e4 : takeWhile1 isHostChar (host.toList ++ ' ' :: r)
          = some (host.toList, ' ' :: r) :=
        takeWhile1_eq isHostChar host.toList (' ' :: r) (tokenOk_ne _ _ hhost)
          (tokenOk_all _ _ hhost) (by show isHostChar ' ' = false ; decide)
      have e5 : charP ':' (' ' :: r) = none := by simp [charP]
      rw [hd]
      simp only [parseUri, tagP_self, charP_self, e2, e4, e5, string_mk_toList]
    | some p =>
      simp only [uriOk, Bool.and_eq_true] at hwf
      obtain ⟨⟨⟨⟨hscheme, huser⟩, hhost⟩, hport⟩, hparams⟩ := hwf
      have hsch : scheme = "sip" := eq_of_beq hscheme
      have hpar : params = [] := by simpa using hparams
      subst hsch hpar
      have hple : p ≤ 65535 := of_decide_eq_true hport
      have hd : Uri.display ⟨"sip", some us, host, some p, []⟩ ++ ' ' :: r
          = "sip".toList ++ ':' ::
              (us.toList ++ '@' :: (host.toList ++ ':' :: (natToDec p ++ ' ' :: r))) := by
        simp [Uri.display]
      have e2 : takeWhile1 isUserChar
          (us.toList ++ '@' :: (host.toList ++ ':' :: (natToDec p ++ ' ' :: r)))
          = some (us.toList, '@' :: (host.toList ++ ':' :: (natToDec p ++ ' ' :: r))) :=
        takeWhile1_eq isUserChar us.toList _
          (tokenOk_ne _ _ huser) (tokenOk_all _ _ huser)
          (by show isUserChar '@' = false ; decide)
      have e4 : takeWhile1 isHostChar (host.toList ++ ':' :: (natToDec p ++ ' ' :: r))
          = some (host.toList, ':' :: (natToDec p ++ ' ' :: r)) :=
        takeWhile1_eq isHostChar host.toList (':' :: (natToDec p ++ ' ' :: r))
          (tokenOk_ne _ _ hhost) (tokenOk_all _ _ hhost)
          (by show isHostChar ':' = false ; decide)
      have e6 : digit1P (natToDec p ++ ' ' :: r) = some (natToDec p, ' ' :: r) := by
        rw [digit1P]
        exact takeWhile1_eq Char.isDigit (natToDec p) (' ' :: r) (natToDec_nonEmpty p)
          (natToDec_digits p) (by show Char.isDigit ' ' = false ; decide)
      have e7 : parseDigitsAux (natToDec p) 0 = some p := natToDec_parse p
      rw [hd]
      simp only [parseUri, tagP_self, charP_self, e2, e4, e6, e7, hple, if_true,
        string_mk_toList]

theorem parseMethod_self (m : Method) (rest : List Char) :
    parseMethod ((Method.as_str m).toList ++ rest) = some (m, rest) := by
  cases m <;> rfl

theorem parseMethod_sip (l : List Char) : parseMethod ('S' :: 'I' :: 'P' :: l) = none := rfl

theorem parseRequest_sip (l : List Char) : parseRequest ('S' :: 'I' :: 'P' :: l) = none := rfl

theorem headersBytes_length (hs : List Header) : hs.length ≤ (headersBytes hs).length := by
  induction hs with
  | nil => simp [headersBytes]
  | cons h t ih =>
    rw [headersBytes_cons]
    simp only [List.length_append, List.length_cons]
    omega

theorem display_not_spaceTab (u : Uri) (hw : uriOk u = true) (X : List Char) :
    headNotP isSpaceTab (Uri.display u ++ X) := by
  obtain ⟨scheme, user, host, port, params⟩ := u
  simp only [uriOk, Bool.and_eq_true] at hw
  have hsch : scheme = "sip" := eq_of_beq hw.1.1.1.1
  subst hsch
  show isSpaceTab 's' = false
  decide

theorem digit_not_spaceTab (c : Char) (h : c.isDigit = true) : isSpaceTab c = false := by
  cases hst : isSpaceTab c
  · rfl
  · rw [isSpaceTab, Bool.or_eq_true] at hst
    rcases hst with hs | hs
    · have hc : c = ' ' := of_decide_eq_true hs
      subst hc
      exact absurd h (by decide)
    · have hc : c = '\t' := of_decide_eq_true hs
      subst hc
      exact absurd h (by decide)

theorem parseRequest_roundtrip (r : Request) (hwf : requestWf r = true) :
    parseRequest (Request.to_bytes r) = some r := by
  rw [requestWf, Bool.and_eq_true, Bool.and_eq_true] at hwf
  obtain ⟨⟨huri, hver⟩, hhdr⟩ := hwf
  have hverEq : r.version = "SIP/2.0" := eq_of_beq hver
  have hhdrOk : ∀ h ∈ r.headers, headerOk h = true := List.all_eq_true.mp hhdr
  have hbytes : Request.to_bytes r
      = (Method.as_str r.method).toList ++ ' ' ::
          (Uri.display r.uri ++ ' ' ::
            ("SIP/2.0".toList ++ '\r' :: '\n' ::
              (headersBytes r.headers ++ '\r' :: '\n' :: r.body.toList))) := by
    rw [Request.to_bytes, hverEq]
    simp [List.append_assoc]
  have e1 := parseMethod_self r.method
    (' ' :: (Uri.display r.uri ++ ' ' :: ("SIP/2.0".toList ++ '\r' :: '\n' ::
      (headersBytes r.headers ++ '\r' :: '\n' :: r.body.toList))))
  have e2 : space1P (' ' :: (Uri.display r.uri ++ ' ' :: ("SIP/2.0".toList ++ '\r' :: '\n' ::
      (headersBytes r.headers ++ '\r' :: '\n' :: r.body.toList))))
      = some ([' '], Uri.display r.uri ++ ' ' :: ("SIP/2.0".toList ++ '\r' :: '\n' ::
          (headersBytes r.headers ++ '\r' :: '\n' :: r.body.toList))) := by
    rw [space1P]
    exact takeWhile1_eq isSpaceTab [' '] _ (by simp) (by decide)
      (display_not_spaceTab r.uri huri _)
  have e3 := parseUri_roundtrip r.uri
    ("SIP/2.0".toList ++ '\r' :: '\n' ::
      (headersBytes r.headers ++ '\r' :: '\n' :: r.body.toList)) huri
  have e4 : space1P (' ' :: ("SIP/2.0".toList ++ '\r' :: '\n' ::
      (headersBytes r.headers ++ '\r' :: '\n' :: r.body.toList)))
      = some ([' '], "SIP/2.0".toList ++ '\r' :: '\n' ::
          (headersBytes r.headers ++ '\r' :: '\n' :: r.body.toList)) := by
    rw [space1P]
    exact takeWhile1_eq isSpaceTab [' ']
      ("SIP/2.0".toList ++ '\r' :: '\n' ::
        (headersBytes r.headers ++ '\r' :: '\n' :: r.body.toList))
      (by simp) (by decide) (by show isSpaceTab 'S' = false ; decide)
  have e5 := tagP_self "SIP/2.0".toList
    ('\r' :: '\n' :: (headersBytes r.headers ++ '\r' :: '\n' :: r.body.toList))
  have hfuel : r.headers.length
      ≤ (headersBytes r.headers ++ '\r' :: '\n' :: r.body.toList).length := by
    have hle := headersBytes_length r.headers
    simp only [List.length_append]
    omega
  have e7 := parseHeaders_roundtrip r.headers
    (headersBytes r.headers ++ '\r' :: '\n' :: r.body.toList).length
    ('\r' :: '\n' :: r.body.toList) hhdrOk hfuel (parseHeader_crlf _)
  rw [hbytes]
  simp only [parseRequest, e1, e2, e3, e4, e5, lineEndingP_crlf, e7, string_mk_toList]
  rw [← hverEq]

theorem parseResponse_roundtrip (r : Response) (hwf : responseWf r = true) :
    parseResponse (Response.to_bytes r) = some r := by
  rw [responseWf, Bool.and_eq_true, Bool.and_eq_true, Bool.and_eq_true] at hwf
  obtain ⟨⟨⟨hver, hcode⟩, hreason⟩, hhdr⟩ := hwf
  have hverEq : r.version = "SIP/2.0" := eq_of_beq hver
  have hcodeLe : r.status_code.code ≤ 65535 := of_decide_eq_true hcode
  rw [reasonOk, Bool.and_eq_true] at hreason
  obtain ⟨hfree, hhead⟩ := hreason
  have hhdrOk : ∀ h ∈ r.headers, headerOk h = true := List.all_eq_true.mp hhdr
  have hbytes : Response.to_bytes r
      = "SIP/2.0".toList ++ ' ' ::
          (natToDec r.status_code.code ++ ' ' ::
            (r.reason_phrase.toList ++ '\r' :: '\n' ::
              (headersBytes r.headers ++ '\r' :: '\n' :: r.body.toList))) := by
    rw [Response.to_bytes, hverEq]
    simp [List.append_assoc]
  have e1 := tagP_self "SIP/2.0".toList
    (' ' :: (natToDec r.status_code.code ++ ' ' ::
      (r.reason_phrase.toList ++ '\r' :: '\n' ::
        (headersBytes r.headers ++ '\r' :: '\n' :: r.body.toList))))
  have hnd : headNotP isSpaceTab (natToDec r.status_code.code ++ ' ' ::
      (r.reason_phrase.toList ++ '\r' :: '\n' ::
        (headersBytes r.headers ++ '\r' :: '\n' :: r.body.toList))) := by
    cases hn : natToDec r.status_code.code with
    | nil => exact absurd hn (natToDec_nonEmpty _)
    | cons c cs =>
      show isSpaceTab c = false
      exact digit_not_spaceTab c
        (natToDec_digits _ c (by rw [hn] ; exact List.mem_cons_self c cs))
  have e2 : space1P (' ' :: (natToDec r.status_code.code ++ ' ' ::
      (r.reason_phrase.toList ++ '\r' :: '\n' ::
        (headersBytes r.headers ++ '\r' :: '\n' :: r.body.toList))))
      = some ([' '], natToDec r.status_code.code ++ ' ' ::
          (r.reason_phrase.toList ++ '\r' :: '\n' ::
            (headersBytes r.headers ++ '\r' :: '\n' :: r.body.toList))) := by
    rw [space1P]
    exact takeWhile1_eq isSpaceTab [' '] _ (by simp) (by decide) hnd
  have e3 : digit1P (natToDec r.status_code.code ++ ' ' ::
      (r.reason_phrase.toList ++ '\r' :: '\n' ::
        (headersBytes r.headers ++ '\r' :: '\n' :: r.body.toList)))
      = some (natToDec r.status_code.code, ' ' ::
          (r.reason_phrase.toList ++ '\r' :: '\n' ::
            (headersBytes r.headers ++ '\r' :: '\n' :: r.body.toList))) := by
    rw [digit1P]
    exact takeWhile1_eq Char.isDigit (natToDec r.status_code.code) _
      (natToDec_nonEmpty _) (natToDec_digits _) (by show Char.isDigit ' ' = false ; decide)
  have e4 := natToDec_parse r.status_code.code
  have hrh : headNotP isSpaceTab (r.reason_phrase.toList ++ '\r' :: '\n' ::
      (headersBytes r.headers ++ '\r' :: '\n' :: r.body.toList)) := by
    cases hv : r.reason_phrase.toList with
    | nil =>
      show isSpaceTab '\r' = false
      decide
    | cons c cs =>
      show isSpaceTab c = false
      rw [hv] at hhead
      simpa using hhead
  have e5 : space1P (' ' :: (r.reason_phrase.toList ++ '\r' :: '\n' ::
      (headersBytes r.headers ++ '\r' :: '\n' :: r.body.toList)))
      = some ([' '], r.reason_phrase.toList ++ '\r' :: '\n' ::
          (headersBytes r.headers ++ '\r' :: '\n' :: r.body.toList)) := by
    rw [space1P]
    exact takeWhile1_eq isSpaceTab [' '] _ (by simp) (by decide) hrh
  have e6 := takeUntilCRLF_eq r.reason_phrase.toList
    (headersBytes r.headers ++ '\r' :: '\n' :: r.body.toList) hfree
  have hfuel : r.headers.length
      ≤ (headersBytes r.headers ++ '\r' :: '\n' :: r.body.toList).length := by
    have hle := headersBytes_length r.headers
    simp only [List.length_append]
    omega
  have e7 := parseHeaders_roundtrip r.headers
    (headersBytes r.headers ++ '\r' :: '\n' :: r.body.toList).length
    ('\r' :: '\n' :: r.body.toList) hhdrOk hfuel (parseHeader_crlf _)
  rw [hbytes]
  simp only [parseResponse, e1, e2, e3, e4, hcodeLe, if_true, e5, e6,
    lineEndingP_crlf, e7, string_mk_toList]
  rw [← hverEq]

/-- C7: for every well-formed SIP message m — a Request or Response whose
URI, headers and body are representable by the parser's grammar
(`messageWf`: scheme `sip`, token user/host, `u16` port, no uri params,
token header names, CRLF-free trim-invariant header values, `u16` status,
CRLF-free reason phrase without leading blank, version `SIP/2.0`) —
parsing the byte serialization of m yields m again, headers preserved in
insertion order: `parse_message (to_bytes m) = Ok m`. -/
theorem C7_parse_serialize_roundtrip (m : Message) (h : messageWf m = true) :
    parse_message (String.mk (Message.to_bytes m)) = .ok m := by
  cases m with
  | Request req =>
    have h1 : parseRequest (Request.to_bytes req) = some req :=
      parseRequest_roundtrip req h
    have ht : (String.mk (Message.to_bytes (Message.Request req))).toList
        = Request.to_bytes req := rfl
    rw [parse_message, ht, h1]
  | Response res =>
    have hwf : responseWf res = true := h
    have h2 : parseResponse (Response.to_bytes res) = some res :=
      parseResponse_roundtrip res hwf
    have hver2 : res.version = "SIP/2.0" := by
      rw [responseWf, Bool.and_eq_true, Bool.and_eq_true, Bool.and_eq_true] at hwf
      exact eq_of_beq hwf.1.1.1
    have hsip : ∃ t, Response.to_bytes res = 'S' :: 'I' :: 'P' :: t := by
      rw [Response.to_bytes, hver2]
      exact ⟨_, rfl⟩
    obtain ⟨t, ht2⟩ := hsip
    have h1 : parseRequest (Response.to_bytes res) = none := by
      rw [ht2]
      exact parseRequest_sip t
    have ht : (String.mk (Message.to_bytes (Message.Response res))).toList
        = Response.to_bytes res := rfl
    rw [parse_message, ht, h1, h2]

/-- A concrete well-formed INVITE used to witness the round-trip. -/
def c7Msg : Message :=
  .Request ⟨.Invite, ⟨"sip", some "alice", "example.com", some 5060, []⟩, "SIP/2.0",
    [⟨"Via", "SIP/2.0/UDP pbx.example.com"⟩, ⟨"Call-ID", "abc123"⟩], "v=0"⟩

theorem C7_witness :
    messageWf c7Msg = true ∧
      parse_message (String.mk (Message.to_bytes c7Msg)) = .ok c7Msg :=
  ⟨by decide, C7_parse_serialize_roundtrip c7Msg (by decide)⟩
